import Mathlib

/-!
Verification of the copy-on-write, reference-counted string buffer manager
from `include/amvsimpstr.h` (`BStringData`, `CSimpleStringT`).

The embedding is shallow: the buffer header is a record, the process heap is
an association list from addresses to buffers, a string handle is an address
into that heap, and every member function of the C++ class becomes a state
passing Lean function.  C `int` values are `Int` with the explicit `INT_MAX`
bound where the code checks it; character units are `Int` with `0` as the
NUL terminator.  Fallible operations return `Except String`, mirroring
`AmvThrow`.  The pluggable allocator backend (`IAmvStringMgr`) is not part of
the repository; its operations are modelled from the spec where noted.
-/

/-- `INT_MAX` of the C `int` type used for all lengths. -/
def INT_MAX : Int := 2147483647

/-- Functional model of a `memcpy`-style write into a character array:
overwrite `dst` starting at cell `off` with the cells of `src`.  (`memmove`
has the same functional description, since `src` is captured whole.) -/
def writeAt (dst : List Int) (off : Nat) (src : List Int) : List Int :=
  dst.take off ++ src ++ dst.drop (off + src.length)

/-- Resize a character array to exactly `n` cells, keeping the old prefix.
Fresh cells are zero here (their contents are unspecified in C; no claim
depends on them). -/
def resize (p : List Int) (n : Nat) : List Int :=
  p.take n ++ List.replicate (n - p.length) 0

/-- `strnlen`: number of characters before the first NUL, capped at `n`. -/
def strnlen : List Int → Nat → Nat
  | _, 0 => 0
  | [], _ + 1 => 0
  | c :: cs, n + 1 => if c = 0 then 0 else strnlen cs n + 1

/-- `strlen`: number of characters before the first NUL. -/
def strlen : List Int → Nat
  | [] => 0
  | c :: cs => if c = 0 then 0 else strlen cs + 1

/-- Shallow embedding of `BStringData`: the buffer header together with its
character payload (the `nAllocLength + 1` cells that follow the header in
memory).  The string manager is identified by a numeric id. -/
structure Buf where
  pStringMgr : Nat
  nDataLength : Int
  nAllocLength : Int
  nRefs : Int
  payload : List Int
deriving Repr, DecidableEq

/-- `BStringData::IsLocked`: negative reference count means locked. -/
def Buf.IsLocked (b : Buf) : Bool := b.nRefs < 0

/-- `BStringData::IsShared`. -/
def Buf.IsShared (b : Buf) : Bool := b.nRefs > 1

/-- `BStringData::AddRef`. -/
def Buf.AddRef (b : Buf) : Buf := { b with nRefs := b.nRefs + 1 }

/-- `BStringData::Lock`: decrement, skipping 0 down to -1. -/
def Buf.Lock (b : Buf) : Buf :=
  let r := b.nRefs - 1
  { b with nRefs := if r = 0 then -1 else r }

/-- `BStringData::Unlock`: increment, skipping 0 up to 1 (guarded by
`IsLocked`). -/
def Buf.Unlock (b : Buf) : Buf :=
  if b.IsLocked then
    let r := b.nRefs + 1
    { b with nRefs := if r = 0 then 1 else r }
  else b

/-- `CNilStringData`: the immortal nil buffer.  Its constructor sets
`nRefs = 2`, zero lengths, and a two-cell NUL payload. -/
def nilBufInit : Buf :=
  { pStringMgr := 0, nDataLength := 0, nAllocLength := 0, nRefs := 2,
    payload := [0, 0] }

def assocGet : List (Nat × Buf) → Nat → Option Buf
  | [], _ => none
  | p :: ps, a => if p.1 = a then some p.2 else assocGet ps a

def assocSet : List (Nat × Buf) → Nat → Buf → List (Nat × Buf)
  | [], _, _ => []
  | p :: ps, a, b => (if p.1 = a then (a, b) else p) :: assocSet ps a b

def assocRemove : List (Nat × Buf) → Nat → List (Nat × Buf)
  | [], _ => []
  | p :: ps, a => if p.1 = a then assocRemove ps a else p :: assocRemove ps a

/-- The process heap of string buffers: an address-to-buffer map plus the
next fresh address.  Address 0 is reserved for the nil singleton. -/
structure Heap where
  bufs : List (Nat × Buf)
  next : Nat
deriving Repr, DecidableEq

def Heap.get (h : Heap) (a : Nat) : Option Buf := assocGet h.bufs a

def Heap.set (h : Heap) (a : Nat) (b : Buf) : Heap :=
  { h with bufs := assocSet h.bufs a b }

def Heap.remove (h : Heap) (a : Nat) : Heap :=
  { h with bufs := assocRemove h.bufs a }

def Heap.alloc (h : Heap) (b : Buf) : Heap × Nat :=
  ({ bufs := (h.next, b) :: h.bufs, next := h.next + 1 }, h.next)

/-- Modelled from the spec: the allocator's free operation (`IAmvStringMgr::Free`
is not part of the repository).  The nil singleton (address 0) is recognized
and never freed. -/
def Heap.free (h : Heap) (a : Nat) : Heap := if a = 0 then h else h.remove a

/-- `BStringData::Release`: decrement the reference count; at zero or below
the buffer is returned to its manager for deallocation. -/
def Heap.release (h : Heap) (a : Nat) : Heap :=
  match h.get a with
  | none => h
  | some b =>
    let b' := { b with nRefs := b.nRefs - 1 }
    if b'.nRefs ≤ 0 then (h.set a b').free a else h.set a b'

/-- Modelled from the spec: `IAmvStringMgr::Clone` ("derive a compatible
instance") for the stateless default manager returns the same instance. -/
def mgrClone (m : Nat) : Nat := m

/-- The header-plus-payload record of a freshly allocated buffer of capacity
`n`: unique, zero data length, `n + 1` payload cells. -/
def allocBuf (m : Nat) (n : Int) : Buf :=
  { pStringMgr := m, nDataLength := 0, nAllocLength := n, nRefs := 1,
    payload := List.replicate (n.toNat + 1) 0 }

/-- Modelled from the spec: `IAmvStringMgr::Allocate` — a fresh unique buffer
with capacity `n` (failure for a negative request).  Fresh cell contents are
unspecified in C and zero here; no claim depends on them. -/
def Heap.allocate (h : Heap) (m : Nat) (n : Int) : Option (Heap × Nat) :=
  if n < 0 then none
  else some (h.alloc (allocBuf m n))

/-- Modelled from the spec: `IAmvStringMgr::Reallocate` — grow the buffer in
place, preserving contents; the returned buffer "may be a different buffer
object", modelled as relocation to a fresh address. -/
def Heap.reallocate (h : Heap) (a : Nat) (n : Int) : Heap × Nat :=
  match h.get a with
  | none => (h, a)
  | some b =>
    (h.remove a).alloc
      { b with nAllocLength := n, payload := resize b.payload (n.toNat + 1) }

/-- Modelled from the spec: `IAmvStringMgr::GetNilString` — return the nil
singleton (address 0), taking a reference on it. -/
def Heap.getNilString (h : Heap) : Heap × Nat :=
  (match h.get 0 with
   | some b => h.set 0 b.AddRef
   | none => h, 0)

/-- A `CSimpleStringT` handle: the heap plus the address of the attached
buffer (`m_pszData` points at that buffer's payload). -/
structure SState where
  heap : Heap
  addr : Nat
deriving Repr, DecidableEq

/-- `GetData()`: the attached buffer (total via a default for dangling
addresses; well-formedness hypotheses rule those out). -/
def SState.data (s : SState) : Buf := (s.heap.get s.addr).getD nilBufInit

/-- `GetLength()`. -/
def SState.GetLength (s : SState) : Int := s.data.nDataLength

/-- The observable string value: the first `nDataLength` payload cells. -/
def SState.value (s : SState) : List Int :=
  s.data.payload.take s.data.nDataLength.toNat

/-- The source span argument of `Append`/`SetString`: either a pointer into
the handle's own payload at a given offset (the aliased case the code
detects via `pszSrc - GetString()`), or a span of external memory. -/
inductive Src where
  | inBuf (off : Nat)
  | ext (cs : List Int)
deriving Repr, DecidableEq

/-- Dereference a source span against the handle's current payload. -/
def Src.read : Src → List Int → List Int
  | .inBuf off, p => p.drop off
  | .ext cs, _ => cs

/-- `SetLength`: bounds-check, commit `nDataLength`, write the terminator at
index `nLength`. -/
def SState.SetLength (s : SState) (nLength : Int) : Except String SState :=
  if nLength < 0 ∨ nLength > s.data.nAllocLength then .error "Invalid arguments"
  else
    let b := { s.data with
      nDataLength := nLength,
      payload := writeAt s.data.payload nLength.toNat [0] }
    .ok { s with heap := s.heap.set s.addr b }

/-- `Fork`: allocate a buffer of capacity `nLength` from a cloned manager,
copy `min(oldLength, nLength) + 1` cells (terminator included), set the new
buffer's data length to the old length, release the old buffer, attach. -/
def SState.Fork (s : SState) (nLength : Int) : Except String SState :=
  let pOldData := s.data
  let nOldLength := pOldData.nDataLength
  match s.heap.allocate (mgrClone pOldData.pStringMgr) nLength with
  | none => .error "Out of memory"
  | some (h1, aNew) =>
    let nCharsToCopy := (min nOldLength nLength) + 1
    let h2 := match h1.get aNew with
      | some nb => h1.set aNew
          { nb with payload := writeAt nb.payload 0
                      (pOldData.payload.take nCharsToCopy.toNat),
                    nDataLength := nOldLength }
      | none => h1
    .ok { heap := h2.release s.addr, addr := aNew }

/-- The candidate capacity of `PrepareWrite2`: grow by 1.5x up to (and
including) 1 GiB of current capacity, by a fixed 1 MiB above it.  (C `int`
division truncates toward zero, hence `Int.div`.) -/
def growCandidate (nAllocLength : Int) : Int :=
  if nAllocLength > 1073741824 then nAllocLength + 1048576
  else nAllocLength + Int.tdiv nAllocLength 2

/-- `Reallocate`: delegate growth to the manager (the degenerate guard throws
the same memory fault as the original). -/
def SState.Reallocate (s : SState) (nLength : Int) : Except String SState :=
  let pOldData := s.data
  if pOldData.nAllocLength ≥ nLength ∨ nLength ≤ 0 then .error "Out of memory"
  else
    let (h1, aNew) := s.heap.reallocate s.addr nLength
    .ok { heap := h1, addr := aNew }

/-- `PrepareWrite2`: bump the request to the current data length, then fork
if shared, else grow through `growCandidate` when the capacity is short. -/
def SState.PrepareWrite2 (s : SState) (nLength : Int) : Except String SState :=
  let pOldData := s.data
  let nLength := if pOldData.nDataLength > nLength then pOldData.nDataLength
                 else nLength
  if pOldData.IsShared then s.Fork nLength
  else if pOldData.nAllocLength < nLength then
    let nNewLength := growCandidate pOldData.nAllocLength
    let nNewLength := if nNewLength < nLength then nLength else nNewLength
    s.Reallocate nNewLength
  else .ok s

/-- `PrepareWrite`: the fast path; `(nShared | nTooShort) < 0` in C tests
whether either sign bit is set, i.e. either value is negative. -/
def SState.PrepareWrite (s : SState) (nLength : Int) : Except String SState :=
  if nLength < 0 then .error "Invalid arguments"
  else
    let pOldData := s.data
    let nShared := 1 - pOldData.nRefs
    let nTooShort := pOldData.nAllocLength - nLength
    if nShared < 0 ∨ nTooShort < 0 then s.PrepareWrite2 nLength else .ok s

/-- `GetBuffer(int)`. -/
def SState.GetBuffer (s : SState) (nMinBufferLength : Int) : Except String SState :=
  s.PrepareWrite nMinBufferLength

/-- `GetBuffer()` (no argument): fork when shared. -/
def SState.GetBuffer0 (s : SState) : Except String SState :=
  if s.data.IsShared then s.Fork s.data.nDataLength else .ok s

/-- `LockBuffer`: fork when shared, then lock the (now unique) buffer. -/
def SState.LockBuffer (s : SState) : Except String SState :=
  match (if s.data.IsShared then s.Fork s.data.nDataLength else .ok s) with
  | .error e => .error e
  | .ok s1 => .ok { s1 with heap := s1.heap.set s1.addr s1.data.Lock }

/-- `UnlockBuffer`. -/
def SState.UnlockBuffer (s : SState) : SState :=
  { s with heap := s.heap.set s.addr s.data.Unlock }

/-- `Append(PCXSTR, int)`: reject a negative incoming length, clamp it with
`StringLengthN`, reject `INT_MAX` overflow, grow via `GetBuffer`, recompute
an aliased source against the buffer returned after growth, copy to the
tail, commit the new length.  (The `UINT` cast and dead negative-length clamp
of `nOldLength` are omitted: `nDataLength` is nonnegative by invariant.) -/
def SState.Append (s : SState) (src : Src) (nLength : Int) : Except String SState :=
  let nOldLength := s.GetLength
  if ¬ (0 ≤ nLength) then .error "Invalid arguments"
  else
    let nLength := (strnlen (src.read s.data.payload) nLength.toNat : Int)
    if ¬ (nOldLength ≤ INT_MAX - nLength) then .error "Invalid arguments"
    else
      let nNewLength := nOldLength + nLength
      match s.GetBuffer nNewLength with
      | .error e => .error e
      | .ok s1 =>
        let srcChars := match src with
          | .inBuf off =>
            if (off : Int) ≤ nOldLength then
              (s1.data.payload.drop off).take nLength.toNat
            else (s.data.payload.drop off).take nLength.toNat
          | .ext cs => cs.take nLength.toNat
        let b := { s1.data with
                   payload := writeAt s1.data.payload nOldLength.toNat srcChars }
        let s2 := { s1 with heap := s1.heap.set s1.addr b }
        s2.SetLength nNewLength

/-- `Empty()`: no-op when already empty; a locked buffer only has its length
reset; otherwise release the buffer and attach the nil singleton. -/
def SState.Empty (s : SState) : Except String SState :=
  let pOldData := s.data
  if pOldData.nDataLength = 0 then .ok s
  else if pOldData.IsLocked then s.SetLength 0
  else
    let h1 := s.heap.release s.addr
    let (h2, aNil) := h1.getNilString
    .ok { heap := h2, addr := aNil }

/-- `SetString(PCXSTR, int)`: empty handling, aliasing detection against the
handle's own buffer, overlap-safe copy, length commit.  (A model `Src` is
never the null pointer, so the null-source throw cannot fire.) -/
def SState.SetString (s : SState) (src : Src) (nLength : Int) : Except String SState :=
  if nLength = 0 then s.Empty
  else
    let nOldLength := s.GetLength
    match s.GetBuffer nLength with
    | .error e => .error e
    | .ok s1 =>
      let srcChars := match src with
        | .inBuf off =>
          if (off : Int) ≤ nOldLength then
            (s1.data.payload.drop off).take nLength.toNat
          else (s.data.payload.drop off).take nLength.toNat
        | .ext cs => cs.take nLength.toNat
      let b := { s1.data with payload := writeAt s1.data.payload 0 srcChars }
      let s2 := { s1 with heap := s1.heap.set s1.addr b }
      s2.SetLength nLength

/-- `SetAt`: bounds-check `[0, length)`, fork-on-write via `GetBuffer()`,
write one character, recommit the length. -/
def SState.SetAt (s : SState) (iChar : Int) (ch : Int) : Except String SState :=
  if iChar < 0 ∨ iChar ≥ s.GetLength then .error "Invalid arguments"
  else
    let nLength := s.GetLength
    match s.GetBuffer0 with
    | .error e => .error e
    | .ok s1 =>
      let b := { s1.data with payload := writeAt s1.data.payload iChar.toNat [ch] }
      let s2 := { s1 with heap := s1.heap.set s1.addr b }
      s2.SetLength nLength

/-- `Truncate`: `GetBuffer(nNewLength)` then `ReleaseBufferSetLength`. -/
def SState.Truncate (s : SState) (nNewLength : Int) : Except String SState :=
  match s.GetBuffer nNewLength with
  | .error e => .error e
  | .ok s1 => s1.SetLength nNewLength

/-- `ReleaseBuffer`: auto-detect the committed length by scanning for the
terminator (bounded by the allocated length) when called with `-1`. -/
def SState.ReleaseBuffer (s : SState) (nNewLength : Int) : Except String SState :=
  let n := if nNewLength = -1
           then (strnlen s.data.payload s.data.nAllocLength.toNat : Int)
           else nNewLength
  s.SetLength n

/-- `FreeExtra`: compact a non-locked buffer to exactly its data length by
allocating a tight buffer, copying, releasing the old one. -/
def SState.FreeExtra (s : SState) : Except String SState :=
  let pOldData := s.data
  let nLength := pOldData.nDataLength
  if pOldData.nAllocLength = nLength then .ok s
  else if ¬ pOldData.IsLocked then
    match s.heap.allocate pOldData.pStringMgr nLength with
    | none => s.SetLength nLength
    | some (h1, aNew) =>
      let h2 := match h1.get aNew with
        | some nb => h1.set aNew
            { nb with payload := writeAt nb.payload 0
                        (pOldData.payload.take nLength.toNat) }
        | none => h1
      SState.SetLength { heap := h2.release s.addr, addr := aNew } nLength
  else .ok s

/-- `CloneData`: share the buffer via `AddRef` when it is not locked and the
cloned manager is the same instance; otherwise deep-copy into a fresh buffer
(data length set, terminator copied). -/
def cloneData (h : Heap) (a : Nat) : Except String (Heap × Nat) :=
  let pData := (h.get a).getD nilBufInit
  if ¬ pData.IsLocked ∧ mgrClone pData.pStringMgr = pData.pStringMgr then
    .ok (h.set a pData.AddRef, a)
  else
    match h.allocate (mgrClone pData.pStringMgr) pData.nDataLength with
    | none => .error "Out of memory"
    | some (h1, aNew) =>
      let h2 := match h1.get aNew with
        | some nb => h1.set aNew
            { nb with nDataLength := pData.nDataLength,
                      payload := writeAt nb.payload 0
                        (pData.payload.take (pData.nDataLength.toNat + 1)) }
        | none => h1
      .ok (h2, aNew)

/-- `operator=(const CSimpleStringT&)`: identical buffers are a no-op; a
locked target or a manager mismatch routes through `SetString` (full copy);
otherwise `CloneData` the source, release the old target, attach. -/
def assignOp (h : Heap) (aDst aSrc : Nat) : Except String (Heap × Nat) :=
  let pSrcData := (h.get aSrc).getD nilBufInit
  let pOldData := (h.get aDst).getD nilBufInit
  if aSrc ≠ aDst then
    if pOldData.IsLocked ∨ pSrcData.pStringMgr ≠ pOldData.pStringMgr then
      (SState.SetString ⟨h, aDst⟩ (.ext pSrcData.payload) pSrcData.nDataLength).map
        (fun s => (s.heap, s.addr))
    else
      match cloneData h aSrc with
      | .error e => .error e
      | .ok (h1, aNew) => .ok (h1.release aDst, aNew)
  else .ok (h, aDst)

/-- `CSimpleStringT(IAmvStringMgr*)`: attach the manager's nil string. -/
def mkFromMgr (h : Heap) : SState :=
  let (h1, a) := h.getNilString
  ⟨h1, a⟩

/-- `CSimpleStringT(const XCHAR*, int, IAmvStringMgr*)`: reject a null source
with nonzero length, allocate, set the length, copy `nLength` characters. -/
def mkFromChars (h : Heap) (m : Nat) (src : Option (List Int)) (nLength : Int) :
    Except String SState :=
  if src = none ∧ nLength ≠ 0 then .error "Invalid arguments"
  else match h.allocate m nLength with
    | none => .error "Out of memory"
    | some (h1, a) =>
      match SState.SetLength ⟨h1, a⟩ nLength with
      | .error e => .error e
      | .ok s1 =>
        let b := { s1.data with
          payload := writeAt s1.data.payload 0 ((src.getD []).take nLength.toNat) }
        .ok { s1 with heap := s1.heap.set s1.addr b }

/-- `CSimpleStringT(PCXSTR, IAmvStringMgr*)`: length via `StringLength`. -/
def mkFromCStr (h : Heap) (m : Nat) (cs : List Int) : Except String SState :=
  mkFromChars h m (some cs) (strlen cs : Int)

/-- `CSimpleStringT(const CSimpleStringT&)`: attach `CloneData` of the
source's buffer. -/
def mkCopy (h : Heap) (aSrc : Nat) : Except String SState :=
  match cloneData h aSrc with
  | .error e => .error e
  | .ok (h1, a) => .ok ⟨h1, a⟩

/-- `Concatenate`: size the result to the sum of the lengths, copy both
operand spans, commit.  The operand spans are raw pointers in C; here their
cells, captured at call time (the result handle's growth never writes
them). -/
def concatenate (h : Heap) (aRes : Nat) (cs1 : List Int) (nLength1 : Int)
    (cs2 : List Int) (nLength2 : Int) : Except String (Heap × Nat) :=
  let nNewLength := nLength1 + nLength2
  match SState.GetBuffer ⟨h, aRes⟩ nNewLength with
  | .error e => .error e
  | .ok s1 =>
    let p1 := writeAt s1.data.payload 0 (cs1.take nLength1.toNat)
    let p2 := writeAt p1 nLength1.toNat (cs2.take nLength2.toNat)
    let b := { s1.data with payload := p2 }
    let s2 := { s1 with heap := s1.heap.set s1.addr b }
    match s2.SetLength nNewLength with
    | .error e => .error e
    | .ok s3 => .ok (s3.heap, s3.addr)

/-- `operator+(str1, str2)`: construct a handle on the nil string from the
first operand's (cloned) manager, then `Concatenate` both operands. -/
def opPlus (h : Heap) (a1 a2 : Nat) : Except String (Heap × Nat) :=
  let (h1, aS) := h.getNilString
  let b1 := (h1.get a1).getD nilBufInit
  let b2 := (h1.get a2).getD nilBufInit
  concatenate h1 aS b1.payload b1.nDataLength b2.payload b2.nDataLength

/-- The header invariant stated by the spec: nonnegative data length bounded
by the capacity, payload of exactly `nAllocLength + 1` cells, NUL terminator
at index `nDataLength`. -/
def Good (b : Buf) : Prop :=
  0 ≤ b.nDataLength ∧ b.nDataLength ≤ b.nAllocLength ∧
  b.payload.length = b.nAllocLength.toNat + 1 ∧
  b.payload.getD b.nDataLength.toNat 1 = 0

instance (b : Buf) : Decidable (Good b) := by unfold Good; infer_instance

theorem writeAt_length (dst src : List Int) (off : Nat)
    (h : off + src.length ≤ dst.length) :
    (writeAt dst off src).length = dst.length := by
  simp [writeAt]; omega

theorem resize_length (p : List Int) (n : Nat) : (resize p n).length = n := by
  simp [resize]; omega

theorem writeAt_take_le (dst src : List Int) (off k : Nat) (hk : k ≤ off)
    (hoff : off ≤ dst.length) :
    (writeAt dst off src).take k = dst.take k := by
  simp only [writeAt, List.append_assoc]
  rw [List.take_append_eq_append_take, List.take_take]
  have h1 : (dst.take off).length = off := by simp; omega
  rw [h1]
  have h2 : k - off = 0 := by omega
  simp [h2, Nat.min_eq_left hk]

theorem writeAt_take_eq (dst src : List Int) (off : Nat)
    (hoff : off ≤ dst.length) :
    (writeAt dst off src).take (off + src.length) = dst.take off ++ src := by
  simp only [writeAt, List.append_assoc]
  rw [List.take_append_eq_append_take]
  have h1 : (dst.take off).length = off := by simp; omega
  rw [h1, List.take_take, Nat.min_eq_right (by omega : off ≤ off + src.length)]
  congr 1
  rw [List.take_append_eq_append_take]
  have h2 : off + src.length - off = src.length := by omega
  simp [h2]

theorem resize_take (p : List Int) (n k : Nat) (h1 : k ≤ p.length) (h2 : k ≤ n) :
    (resize p n).take k = p.take k := by
  simp only [resize]
  rw [List.take_append_eq_append_take, List.take_take, Nat.min_eq_left h2]
  simp only [List.length_take]
  simp
  omega

theorem take_pres_drop (p1 p2 : List Int) (k off n : Nat)
    (heq : p1.take k = p2.take k) (hb : off + n ≤ k) :
    (p1.drop off).take n = (p2.drop off).take n := by
  have h1 := congrArg (fun l => ((l.drop off).take n : List Int)) heq
  simpa [List.drop_take, List.take_take, Nat.min_eq_left (by omega : n ≤ k - off)] using h1

theorem getD_append_right (u v : List Int) (i : Nat) (d : Int)
    (h : u.length ≤ i) : (u ++ v).getD i d = v.getD (i - u.length) d := by
  induction u generalizing i with
  | nil => simp
  | cons a u ih =>
    cases i with
    | zero => simp at h
    | succ i => simpa using ih i (by simpa using h)

theorem getD_append_left (u v : List Int) (i : Nat) (d : Int)
    (h : i < u.length) : (u ++ v).getD i d = u.getD i d := by
  induction u generalizing i with
  | nil => simp at h
  | cons a u ih =>
    cases i with
    | zero => simp
    | succ i => simpa using ih i (by simp at h; omega)

theorem getD_take (l : List Int) (i k : Nat) (d : Int) (h : i < k) :
    (l.take k).getD i d = l.getD i d := by
  induction l generalizing i k with
  | nil => simp
  | cons a l ih =>
    cases k with
    | zero => omega
    | succ k =>
      cases i with
      | zero => simp
      | succ i => simpa using ih i k (by omega)

theorem getD_drop (l : List Int) (off i : Nat) (d : Int) :
    (l.drop off).getD i d = l.getD (off + i) d := by
  induction l generalizing off with
  | nil => simp
  | cons a l ih =>
    cases off with
    | zero => simp
    | succ off => simp only [List.drop_succ_cons, List.getD_cons_succ, Nat.succ_add]; exact ih off

theorem getD_replicate_lt (n i : Nat) (d : Int) (h : i < n) :
    (List.replicate n (0 : Int)).getD i d = 0 := by
  induction n generalizing i with
  | zero => omega
  | succ n ih =>
    cases i with
    | zero => simp [List.replicate]
    | succ i => simpa [List.replicate] using ih i (by omega)

theorem writeAt_getD_lt (p src : List Int) (off i : Nat) (d : Int)
    (h : i < off) (hoff : off ≤ p.length) :
    (writeAt p off src).getD i d = p.getD i d := by
  simp only [writeAt, List.append_assoc]
  rw [getD_append_left _ _ _ _ (by simp; omega), getD_take _ _ _ _ h]

theorem writeAt_getD_ge (p src : List Int) (off i : Nat) (d : Int)
    (h : off + src.length ≤ i) (hoff : off ≤ p.length) :
    (writeAt p off src).getD i d = p.getD i d := by
  simp only [writeAt, List.append_assoc]
  have hlt : (p.take off).length = off := by simp; omega
  rw [getD_append_right _ _ _ _ (by omega : (p.take off).length ≤ i), hlt]
  rw [getD_append_right _ _ _ _ (by omega : src.length ≤ i - off)]
  rw [getD_drop]
  congr 1
  omega

theorem writeAt_getD_at (p : List Int) (k : Nat) (c d : Int) (h : k < p.length) :
    (writeAt p k [c]).getD k d = c := by
  simp only [writeAt, List.append_assoc]
  have hlt : (p.take k).length = k := by simp; omega
  rw [getD_append_right _ _ _ _ (by omega : (p.take k).length ≤ k), hlt]
  simp

theorem strnlen_le_cap (l : List Int) (n : Nat) : strnlen l n ≤ n := by
  induction l generalizing n with
  | nil => cases n <;> simp [strnlen]
  | cons a l ih =>
    cases n with
    | zero => simp [strnlen]
    | succ n =>
      simp only [strnlen]
      split
      · omega
      · have := ih n; omega

theorem strnlen_le_length (l : List Int) (n : Nat) : strnlen l n ≤ l.length := by
  induction l generalizing n with
  | nil => cases n <;> simp [strnlen]
  | cons a l ih =>
    cases n with
    | zero => simp [strnlen]
    | succ n =>
      simp only [strnlen]
      split
      · simp
      · have := ih n; simp; omega

theorem strnlen_take (l : List Int) (n : Nat) : strnlen (l.take n) n = strnlen l n := by
  induction l generalizing n with
  | nil => simp
  | cons a l ih =>
    cases n with
    | zero => simp [strnlen]
    | succ n => simp only [List.take, strnlen]; rw [ih n]

theorem strnlen_le_zero_at (l : List Int) (n k : Nat) (h : l.getD k 1 = 0) :
    strnlen l n ≤ k := by
  induction l generalizing n k with
  | nil => cases n <;> simp [strnlen]
  | cons a l ih =>
    cases n with
    | zero => simp [strnlen]
    | succ n =>
      cases k with
      | zero =>
        simp only [List.getD_cons_zero] at h
        simp [strnlen, h]
      | succ k =>
        simp only [List.getD_cons_succ] at h
        simp only [strnlen]
        split
        · omega
        · have := ih n k h; omega

theorem assocGet_set_eq (l : List (Nat × Buf)) (a : Nat) (b : Buf) :
    assocGet (assocSet l a b) a = (assocGet l a).map (fun _ => b) := by
  induction l with
  | nil => simp [assocGet, assocSet]
  | cons p ps ih =>
    by_cases hp : p.1 = a
    · simp [assocGet, assocSet, hp]
    · simp [assocGet, assocSet, hp, ih]

theorem assocGet_set_ne (l : List (Nat × Buf)) (a x : Nat) (b : Buf)
    (h : x ≠ a) : assocGet (assocSet l a b) x = assocGet l x := by
  induction l with
  | nil => simp [assocGet, assocSet]
  | cons p ps ih =>
    by_cases hp : p.1 = a
    · simp [assocGet, assocSet, hp, Ne.symm h, ih]
    · by_cases hx : p.1 = x
      · simp [assocGet, assocSet, hp, hx, h]
      · simp [assocGet, assocSet, hp, hx, ih]

theorem assocGet_remove_eq (l : List (Nat × Buf)) (a : Nat) :
    assocGet (assocRemove l a) a = none := by
  induction l with
  | nil => simp [assocGet, assocRemove]
  | cons p ps ih =>
    by_cases hp : p.1 = a
    · simp [assocRemove, hp, ih]
    · simp [assocGet, assocRemove, hp, ih]

theorem assocGet_remove_ne (l : List (Nat × Buf)) (a x : Nat) (h : x ≠ a) :
    assocGet (assocRemove l a) x = assocGet l x := by
  induction l with
  | nil => simp [assocGet, assocRemove]
  | cons p ps ih =>
    by_cases hp : p.1 = a
    · simp [assocGet, assocRemove, hp, Ne.symm h, ih]
    · simp [assocGet, assocRemove, hp, ih]

theorem Heap.get_set_eq (h : Heap) (a : Nat) (b b0 : Buf)
    (hb : h.get a = some b0) : (h.set a b).get a = some b := by
  simp [Heap.get, Heap.set, assocGet_set_eq]
  simp [Heap.get] at hb
  simp [hb]

theorem Heap.get_set_ne (h : Heap) (a x : Nat) (b : Buf) (hx : x ≠ a) :
    (h.set a b).get x = h.get x := by
  simp [Heap.get, Heap.set, assocGet_set_ne _ _ _ _ hx]

theorem Heap.get_remove_ne (h : Heap) (a x : Nat) (hx : x ≠ a) :
    (h.remove a).get x = h.get x := by
  simp [Heap.get, Heap.remove, assocGet_remove_ne _ _ _ hx]

theorem Heap.get_alloc_at (h : Heap) (b : Buf) :
    (h.alloc b).1.get h.next = some b := by
  simp [Heap.get, Heap.alloc, assocGet]

theorem Heap.get_alloc_ne (h : Heap) (b : Buf) (x : Nat) (hx : x ≠ h.next) :
    (h.alloc b).1.get x = h.get x := by
  simp [Heap.get, Heap.alloc, assocGet, Ne.symm hx]

theorem Heap.set_next (h : Heap) (a : Nat) (b : Buf) : (h.set a b).next = h.next := rfl

theorem Heap.remove_next (h : Heap) (a : Nat) : (h.remove a).next = h.next := rfl

theorem Heap.free_next (h : Heap) (a : Nat) : (h.free a).next = h.next := by
  by_cases h0 : a = 0 <;> simp [Heap.free, h0, Heap.remove]

theorem Heap.release_next (h : Heap) (a : Nat) : (h.release a).next = h.next := by
  unfold Heap.release
  cases h.get a with
  | none => rfl
  | some b =>
    simp only []
    split
    · rw [Heap.free_next, Heap.set_next]
    · rw [Heap.set_next]

theorem Heap.alloc_next (h : Heap) (b : Buf) : (h.alloc b).1.next = h.next + 1 := rfl

theorem Heap.alloc_snd (h : Heap) (b : Buf) : (h.alloc b).2 = h.next := rfl

theorem Heap.get_free_ne (h : Heap) (a x : Nat) (hx : x ≠ a) :
    (h.free a).get x = h.get x := by
  by_cases h0 : a = 0
  · simp [Heap.free, h0]
  · simp [Heap.free, h0, Heap.get_remove_ne _ _ _ hx]

theorem Heap.get_release_ne (h : Heap) (a x : Nat) (hx : x ≠ a) :
    (h.release a).get x = h.get x := by
  unfold Heap.release
  cases hg : h.get a with
  | none => rfl
  | some b =>
    simp only []
    split
    · rw [Heap.get_free_ne _ _ _ hx, Heap.get_set_ne _ _ _ _ hx]
    · rw [Heap.get_set_ne _ _ _ _ hx]

theorem Heap.get_release_live (h : Heap) (a : Nat) (b : Buf)
    (hb : h.get a = some b) (hr : 1 ≤ b.nRefs - 1) :
    (h.release a).get a = some { b with nRefs := b.nRefs - 1 } := by
  unfold Heap.release
  rw [hb]
  simp only []
  have : ¬ (b.nRefs - 1 ≤ 0) := by omega
  simp only [this, if_false]
  exact Heap.get_set_eq _ _ _ _ hb

theorem Heap.get_getNilString (h : Heap) (b : Buf) (hb : h.get 0 = some b) :
    (h.getNilString).1.get 0 = some b.AddRef := by
  simp only [Heap.getNilString, hb]
  exact Heap.get_set_eq _ _ _ _ hb

theorem Heap.get_getNilString_ne (h : Heap) (x : Nat) (hx : x ≠ 0) :
    (h.getNilString).1.get x = h.get x := by
  unfold Heap.getNilString
  cases hg : h.get 0 with
  | none => rfl
  | some b => simp only []; exact Heap.get_set_ne _ _ _ _ hx

theorem Heap.getNilString_next (h : Heap) : (h.getNilString).1.next = h.next := by
  unfold Heap.getNilString
  cases h.get 0 with
  | none => rfl
  | some b => rfl

theorem Heap.getNilString_addr (h : Heap) : (h.getNilString).2 = 0 := rfl

theorem SState.data_eq (s : SState) (b : Buf) (hb : s.heap.get s.addr = some b) :
    s.data = b := by simp [SState.data, hb]

/-- The buffer produced by `Fork` with request `L` from a buffer `b`
(derived description; proven against `SState.Fork` below). -/
def forkBuf (b : Buf) (L : Int) : Buf :=
  { pStringMgr := mgrClone b.pStringMgr, nDataLength := b.nDataLength,
    nAllocLength := L, nRefs := 1,
    payload := b.payload.take ((min b.nDataLength L).toNat + 1)
               ++ List.replicate (L.toNat + 1 - ((min b.nDataLength L).toNat + 1)) 0 }

theorem SState.Fork_ok (s : SState) (b : Buf) (L : Int)
    (hb : s.heap.get s.addr = some b)
    (haddr : s.addr < s.heap.next)
    (hL : 0 ≤ L)
    (hplen : b.payload.length = b.nAllocLength.toNat + 1)
    (hdl0 : 0 ≤ b.nDataLength) (hdla : b.nDataLength ≤ b.nAllocLength) :
    ∃ s₁, s.Fork L = .ok s₁ ∧
      s₁.addr = s.heap.next ∧
      s₁.heap.next = s.heap.next + 1 ∧
      s₁.heap.get s₁.addr = some (forkBuf b L) ∧
      (∀ x, x ≠ s.addr → x ≠ s.heap.next → s₁.heap.get x = s.heap.get x) ∧
      (1 ≤ b.nRefs - 1 → s₁.heap.get s.addr = some { b with nRefs := b.nRefs - 1 }) := by
  have hdata : s.data = b := s.data_eq b hb
  have hnl : ¬ (L < 0) := by omega
  set nb : Buf :=
    { pStringMgr := mgrClone b.pStringMgr, nDataLength := 0, nAllocLength := L,
      nRefs := 1, payload := List.replicate (L.toNat + 1) 0 } with hnb
  have halloc : s.heap.allocate (mgrClone b.pStringMgr) L = some (s.heap.alloc nb) := by
    simp [Heap.allocate, allocBuf, hnl, hnb]
  have hga : (s.heap.alloc nb).1.get s.heap.next = some nb := Heap.get_alloc_at _ _
  have hbuf : { nb with
        payload := writeAt nb.payload 0
          (b.payload.take ((min b.nDataLength L) + 1).toNat),
        nDataLength := b.nDataLength } = forkBuf b L := by
    have hc : ((min b.nDataLength L) + 1).toNat = (min b.nDataLength L).toNat + 1 := by
      omega
    have hlen : (b.payload.take ((min b.nDataLength L).toNat + 1)).length
        = (min b.nDataLength L).toNat + 1 := by
      simp [hplen]
      omega
    simp only [writeAt, hnb, forkBuf, hc]
    simp [hlen, List.drop_replicate]
  set s₁ : SState :=
    { heap := (((s.heap.alloc nb).1).set s.heap.next (forkBuf b L)).release s.addr,
      addr := s.heap.next } with hs₁
  have hstep : s.Fork L = .ok s₁ := by
    unfold SState.Fork
    simp only [hdata, halloc, Heap.alloc_snd, hga]
    rw [hbuf]
  refine ⟨s₁, hstep, rfl, ?_, ?_, ?_, ?_⟩
  · simp only [hs₁]
    rw [Heap.release_next, Heap.set_next, Heap.alloc_next]
  · simp only [hs₁]
    rw [Heap.get_release_ne _ _ _ (by omega : s.heap.next ≠ s.addr)]
    exact Heap.get_set_eq _ _ _ _ hga
  · intro x hx1 hx2
    simp only [hs₁]
    rw [Heap.get_release_ne _ _ _ hx1, Heap.get_set_ne _ _ _ _ hx2,
        Heap.get_alloc_ne _ _ _ hx2]
  · intro hr
    have hg2 : (((s.heap.alloc nb).1).set s.heap.next (forkBuf b L)).get s.addr
        = some b := by
      rw [Heap.get_set_ne _ _ _ _ (by omega : s.addr ≠ s.heap.next),
          Heap.get_alloc_ne _ _ _ (by omega : s.addr ≠ s.heap.next)]
      exact hb
    exact Heap.get_release_live _ _ _ hg2 hr

theorem resize_getD (p : List Int) (n i : Nat) (d : Int)
    (h1 : i < p.length) (h2 : i < n) : (resize p n).getD i d = p.getD i d := by
  simp only [resize]
  rw [getD_append_left _ _ _ _ (by simp; omega), getD_take _ _ _ _ h2]

theorem forkBuf_good (b : Buf) (L : Int) (hgood : Good b)
    (hdlL : b.nDataLength ≤ L) : Good (forkBuf b L) := by
  obtain ⟨h1, h2, h3, h4⟩ := hgood
  have hmin : min b.nDataLength L = b.nDataLength := by omega
  have htl : (b.payload.take (b.nDataLength.toNat + 1)).length
      = b.nDataLength.toNat + 1 := by simp [h3]; omega
  refine ⟨h1, by simp [forkBuf]; omega, ?_, ?_⟩
  · simp only [forkBuf, hmin, List.length_append, htl, List.length_replicate]
    omega
  · simp only [forkBuf, hmin]
    rw [getD_append_left _ _ _ _ (by rw [htl]; omega),
        getD_take _ _ _ _ (by omega)]
    exact h4

theorem forkBuf_take (b : Buf) (L : Int) (hgood : Good b)
    (hdlL : b.nDataLength ≤ L) :
    (forkBuf b L).payload.take (b.nDataLength.toNat + 1)
      = b.payload.take (b.nDataLength.toNat + 1) := by
  obtain ⟨h1, h2, h3, h4⟩ := hgood
  have hmin : min b.nDataLength L = b.nDataLength := by omega
  have htl : (b.payload.take (b.nDataLength.toNat + 1)).length
      = b.nDataLength.toNat + 1 := by simp [h3]; omega
  simp only [forkBuf, hmin]
  rw [List.take_append_eq_append_take, htl]
  simp

theorem SState.Reallocate_ok (s : SState) (b : Buf) (n : Int)
    (hb : s.heap.get s.addr = some b)
    (_haddr : s.addr < s.heap.next)
    (hgt : b.nAllocLength < n) (h0 : 0 < n) :
    ∃ s₁, s.Reallocate n = .ok s₁ ∧
      s₁.addr = s.heap.next ∧
      s₁.heap.next = s.heap.next + 1 ∧
      s₁.heap.get s₁.addr
        = some { b with nAllocLength := n, payload := resize b.payload (n.toNat + 1) } ∧
      (∀ x, x ≠ s.addr → x ≠ s.heap.next → s₁.heap.get x = s.heap.get x) := by
  have hdata : s.data = b := s.data_eq b hb
  have hguard : ¬ (b.nAllocLength ≥ n ∨ n ≤ 0) := by omega
  set nb : Buf := { b with nAllocLength := n, payload := resize b.payload (n.toNat + 1) }
    with hnb
  have hre : s.heap.reallocate s.addr n = (s.heap.remove s.addr).alloc nb := by
    unfold Heap.reallocate
    rw [hb]
  have hrn : (s.heap.remove s.addr).next = s.heap.next := Heap.remove_next _ _
  set s₁ : SState :=
    { heap := ((s.heap.remove s.addr).alloc nb).1, addr := s.heap.next } with hs₁
  have hstep : s.Reallocate n = .ok s₁ := by
    unfold SState.Reallocate
    simp only [hdata, hguard, if_false, hre, hs₁]
    rw [Heap.alloc_snd, hrn]
  refine ⟨s₁, hstep, rfl, ?_, ?_, ?_⟩
  · simp only [hs₁, Heap.alloc_next, hrn]
  · simp only [hs₁]
    have := Heap.get_alloc_at (s.heap.remove s.addr) nb
    rw [hrn] at this
    exact this
  · intro x hx1 hx2
    simp only [hs₁]
    have hne : x ≠ (s.heap.remove s.addr).next := by rw [hrn]; exact hx2
    rw [Heap.get_alloc_ne _ _ _ hne, Heap.get_remove_ne _ _ _ hx1]

theorem reallocBuf_good (b : Buf) (n : Int) (hgood : Good b)
    (hgt : b.nAllocLength < n) :
    Good { b with nAllocLength := n, payload := resize b.payload (n.toNat + 1) } := by
  obtain ⟨h1, h2, h3, h4⟩ := hgood
  refine ⟨h1, by simp; omega, by simp [resize_length], ?_⟩
  simp only []
  rw [resize_getD _ _ _ _ (by omega) (by omega)]
  exact h4

theorem reallocBuf_take (b : Buf) (n : Int) (hgood : Good b)
    (hgt : b.nAllocLength < n) :
    ({ b with nAllocLength := n, payload := resize b.payload (n.toNat + 1) } : Buf).payload.take
        (b.nDataLength.toNat + 1)
      = b.payload.take (b.nDataLength.toNat + 1) := by
  obtain ⟨h1, h2, h3, h4⟩ := hgood
  exact resize_take _ _ _ (by omega) (by omega)

theorem SState.PrepareWrite_ok (s : SState) (b : Buf) (n : Int)
    (hb : s.heap.get s.addr = some b)
    (haddr : s.addr < s.heap.next)
    (hgood : Good b) (hn : 0 ≤ n) :
    ∃ s₁ b₁, s.PrepareWrite n = .ok s₁ ∧
      s₁.heap.get s₁.addr = some b₁ ∧
      Good b₁ ∧
      b₁.nDataLength = b.nDataLength ∧
      b₁.payload.take (b.nDataLength.toNat + 1)
        = b.payload.take (b.nDataLength.toNat + 1) ∧
      n ≤ b₁.nAllocLength ∧
      s₁.addr < s₁.heap.next ∧
      s.heap.next ≤ s₁.heap.next ∧
      (∀ x, x ≠ s.addr → x < s.heap.next → s₁.heap.get x = s.heap.get x) ∧
      (s₁.addr = s.addr ∨ s₁.addr = s.heap.next) := by
  obtain ⟨hg1, hg2, hg3, hg4⟩ := hgood
  have hdata : s.data = b := s.data_eq b hb
  have hnn : ¬ (n < 0) := by omega
  by_cases hfast : (1 - b.nRefs < 0 ∨ b.nAllocLength - n < 0)
  · -- slow path: PrepareWrite2
    have hpw : s.PrepareWrite n = s.PrepareWrite2 n := by
      unfold SState.PrepareWrite
      simp only [hdata, hnn, if_false, if_pos hfast]
    set L : Int := if b.nDataLength > n then b.nDataLength else n with hL
    have hL0 : 0 ≤ L := by rw [hL]; split <;> omega
    have hdlL : b.nDataLength ≤ L := by rw [hL]; split <;> omega
    have hnL : n ≤ L := by rw [hL]; split <;> omega
    by_cases hsh : b.IsShared
    · -- fork
      have hpw2 : s.PrepareWrite2 n = s.Fork L := by
        unfold SState.PrepareWrite2
        simp only [hdata, hsh, if_true, ← hL]
      obtain ⟨s₁, hstep, ha1, ha2, ha3, ha4, ha5⟩ :=
        s.Fork_ok b L hb haddr hL0 hg3 hg1 hg2
      refine ⟨s₁, forkBuf b L, ?_, ha3, forkBuf_good b L ⟨hg1, hg2, hg3, hg4⟩ hdlL,
        rfl, forkBuf_take b L ⟨hg1, hg2, hg3, hg4⟩ hdlL,
        (by simp only [forkBuf]; omega : n ≤ (forkBuf b L).nAllocLength),
        ?_, by omega, ?_, Or.inr ha1⟩
      · rw [hpw, hpw2]; exact hstep
      · rw [ha1, ha2]; omega
      · intro x hx1 hx2
        exact ha4 x hx1 (by omega)
    · -- grow through the allocator
      have hshr : ¬ (b.nRefs > 1) := by
        simp [Buf.IsShared] at hsh; omega
      have halln : b.nAllocLength < n := by
        rcases hfast with hc | hc
        · omega
        · omega
      have hallL : b.nAllocLength < L := by omega
      set R : Int := if growCandidate b.nAllocLength < L then L
                     else growCandidate b.nAllocLength with hR
      have hRL : L ≤ R := by rw [hR]; split <;> omega
      have hgc : 0 ≤ growCandidate b.nAllocLength := by
        simp only [growCandidate]
        split
        · omega
        · have : 0 ≤ Int.tdiv b.nAllocLength 2 := Int.tdiv_nonneg (by omega) (by omega)
          omega
      have hpw2 : s.PrepareWrite2 n = s.Reallocate R := by
        unfold SState.PrepareWrite2
        simp only [hdata, ← hL, ← hR]
        simp [hsh, if_pos hallL]
      obtain ⟨s₁, hstep, ha1, ha2, ha3, ha4⟩ :=
        s.Reallocate_ok b R hb haddr (by omega) (by omega)
      refine ⟨s₁, _, ?_, ha3,
        reallocBuf_good b R ⟨hg1, hg2, hg3, hg4⟩ (by omega),
        rfl, reallocBuf_take b R ⟨hg1, hg2, hg3, hg4⟩ (by omega),
        by simp; omega, ?_, by omega, ?_, Or.inr ha1⟩
      · rw [hpw, hpw2]; exact hstep
      · rw [ha1, ha2]; omega
      · intro x hx1 hx2
        exact ha4 x hx1 (by omega)
  · -- fast path: nothing to do
    have hpw : s.PrepareWrite n = .ok s := by
      unfold SState.PrepareWrite
      simp only [hdata, hnn, if_false, if_neg hfast]
    exact ⟨s, b, hpw, hb, ⟨hg1, hg2, hg3, hg4⟩, rfl, rfl, by omega, haddr,
      le_refl _, fun x _ _ => rfl, Or.inl rfl⟩

theorem SState.SetLength_ok (s : SState) (b : Buf) (m : Int)
    (hb : s.heap.get s.addr = some b)
    (hplen : b.payload.length = b.nAllocLength.toNat + 1)
    (hm0 : 0 ≤ m) (hma : m ≤ b.nAllocLength) :
    ∃ s₂, s.SetLength m = .ok s₂ ∧
      s₂.addr = s.addr ∧
      s₂.heap.next = s.heap.next ∧
      s₂.heap.get s₂.addr
        = some { b with nDataLength := m, payload := writeAt b.payload m.toNat [0] } ∧
      Good { b with nDataLength := m, payload := writeAt b.payload m.toNat [0] } ∧
      (∀ x, x ≠ s.addr → s₂.heap.get x = s.heap.get x) := by
  have hdata : s.data = b := s.data_eq b hb
  have hguard : ¬ (m < 0 ∨ m > b.nAllocLength) := by omega
  set b₂ : Buf := { b with nDataLength := m, payload := writeAt b.payload m.toNat [0] }
    with hb₂
  have hstep : s.SetLength m = .ok { s with heap := s.heap.set s.addr b₂ } := by
    unfold SState.SetLength
    simp only [hdata, hguard, if_false, hb₂]
  refine ⟨_, hstep, rfl, Heap.set_next _ _ _, ?_, ?_, ?_⟩
  · exact Heap.get_set_eq _ _ _ _ hb
  · refine ⟨hm0, by simp [hb₂]; omega, ?_, ?_⟩
    · simp only [hb₂]
      rw [writeAt_length _ _ _ (by simp; omega)]
      simpa using hplen
    · simp only [hb₂]
      exact writeAt_getD_at _ _ _ _ (by omega)
  · intro x hx
    exact Heap.get_set_ne _ _ _ _ hx

theorem SState.Append_ok (s : SState) (b : Buf) (src : Src) (n : Int)
    (hb : s.heap.get s.addr = some b)
    (haddr : s.addr < s.heap.next)
    (hgood : Good b) (hn : 0 ≤ n)
    (hmax : b.nDataLength + (strnlen (src.read b.payload) n.toNat : Int) ≤ INT_MAX) :
    ∃ s₂ b₂, s.Append src n = .ok s₂ ∧
      s₂.heap.get s₂.addr = some b₂ ∧
      Good b₂ ∧
      b₂.nDataLength = b.nDataLength + (strnlen (src.read b.payload) n.toNat : Int) ∧
      s₂.value = b.payload.take b.nDataLength.toNat
                   ++ (src.read b.payload).take (strnlen (src.read b.payload) n.toNat) ∧
      s.heap.next ≤ s₂.heap.next ∧
      s₂.addr < s₂.heap.next ∧
      (∀ x, x ≠ s.addr → x < s.heap.next → s₂.heap.get x = s.heap.get x) := by
  obtain ⟨hg1, hg2, hg3, hg4⟩ := hgood
  have hdata : s.data = b := s.data_eq b hb
  set nI : Int := (strnlen (src.read b.payload) n.toNat : Int) with hnI
  have hnI0 : 0 ≤ nI := by rw [hnI]; omega
  have hnIlen : nI.toNat ≤ (src.read b.payload).length := by
    have := strnlen_le_length (src.read b.payload) n.toNat
    omega
  have hg2' : ¬ ¬ (0 ≤ n) := by omega
  have hg3' : ¬ ¬ (b.nDataLength ≤ INT_MAX - nI) := by omega
  obtain ⟨s₁, b₁, hpw, hb1, hgood1, hdl1, htake1, hall1, hlt1, hnext1, hframe1, haddr1⟩ :=
    s.PrepareWrite_ok b (b.nDataLength + nI) hb haddr ⟨hg1, hg2, hg3, hg4⟩ (by omega)
  have hdata1 : s₁.data = b₁ := s₁.data_eq b₁ hb1
  obtain ⟨hq1, hq2, hq3, hq4⟩ := hgood1
  have h2 : b₁.payload.take b.nDataLength.toNat = b.payload.take b.nDataLength.toNat := by
    have h3 := congrArg (fun l => List.take b.nDataLength.toNat l) htake1
    simpa [List.take_take,
      Nat.min_eq_left (by omega : b.nDataLength.toNat ≤ b.nDataLength.toNat + 1)] using h3
  have main : ∀ sc : List Int, sc = (src.read b.payload).take nI.toNat →
      ∃ s₂ b₂,
        SState.SetLength
          ⟨s₁.heap.set s₁.addr
             ({ b₁ with payload := writeAt b₁.payload b.nDataLength.toNat sc }), s₁.addr⟩
          (b.nDataLength + nI) = .ok s₂ ∧
        s₂.heap.get s₂.addr = some b₂ ∧ Good b₂ ∧
        b₂.nDataLength = b.nDataLength + nI ∧
        s₂.value = b.payload.take b.nDataLength.toNat
                     ++ (src.read b.payload).take nI.toNat ∧
        s.heap.next ≤ s₂.heap.next ∧
        s₂.addr < s₂.heap.next ∧
        (∀ x, x ≠ s.addr → x < s.heap.next → s₂.heap.get x = s.heap.get x) := by
    intro sc hsc
    have hclen : sc.length = nI.toNat := by
      rw [hsc]
      simp
      omega
    set bMid : Buf := { b₁ with payload := writeAt b₁.payload b.nDataLength.toNat sc }
      with hbMid
    have hmidlen : bMid.payload.length = bMid.nAllocLength.toNat + 1 := by
      simp only [hbMid]
      rw [writeAt_length _ _ _ (by rw [hclen, hq3]; omega)]
      exact hq3
    set sMid : SState := ⟨s₁.heap.set s₁.addr bMid, s₁.addr⟩ with hsMid
    have hbMidget : sMid.heap.get sMid.addr = some bMid := by
      simp only [hsMid]
      exact Heap.get_set_eq _ _ _ _ hb1
    obtain ⟨s₂, hsl, hsla, hsln, hslg, hslgood, hslframe⟩ :=
      sMid.SetLength_ok bMid (b.nDataLength + nI) hbMidget hmidlen (by omega)
        (by simp only [hbMid]; omega)
    refine ⟨s₂, _, hsl, hslg, hslgood, by simp, ?_, ?_, ?_, ?_⟩
    · -- the committed value
      have hv : s₂.value = bMid.payload.take (b.nDataLength + nI).toNat := by
        unfold SState.value
        rw [SState.data_eq _ _ hslg]
        exact writeAt_take_le _ _ _ _ (le_refl _)
          (by rw [hmidlen]; simp only [hbMid]; omega)
      have h1 : (b.nDataLength + nI).toNat = b.nDataLength.toNat + nI.toNat := by omega
      calc s₂.value = bMid.payload.take (b.nDataLength + nI).toNat := hv
        _ = (writeAt b₁.payload b.nDataLength.toNat sc).take
              (b.nDataLength.toNat + sc.length) := by
            simp only [hbMid, h1, hclen]
        _ = b₁.payload.take b.nDataLength.toNat ++ sc :=
            writeAt_take_eq _ _ _ (by rw [hq3]; omega)
        _ = b.payload.take b.nDataLength.toNat
              ++ (src.read b.payload).take nI.toNat := by rw [h2, hsc]
    · rw [hsln]
      simp only [hsMid, Heap.set_next]
      omega
    · rw [hsla, hsln]
      simp only [hsMid, Heap.set_next]
      exact hlt1
    · intro x hx1 hx2
      have hxne : x ≠ s₁.addr := by
        rcases haddr1 with h | h
        · rw [h]; exact hx1
        · rw [h]; omega
      rw [hslframe x (by simpa [hsMid] using hxne)]
      have hms : sMid.heap.get x = s₁.heap.get x := by
        simp only [hsMid]
        exact Heap.get_set_ne _ _ _ _ hxne
      rw [hms]
      exact hframe1 x hx1 hx2
  -- now dispatch on the shape of the source span
  cases src with
  | ext cs =>
    obtain ⟨s₂, b₂, hstep, rest⟩ := main (cs.take nI.toNat) (by simp [Src.read])
    refine ⟨s₂, b₂, ?_, rest⟩
    unfold SState.Append
    simp only [SState.GetLength, hdata]
    rw [if_neg hg2']
    simp only [← hnI]
    rw [if_neg hg3']
    simp only [SState.GetBuffer, hpw, hdata1]
    exact hstep
  | inBuf off =>
    by_cases hoff : (off : Int) ≤ b.nDataLength
    · have hterm : (b.payload.drop off).getD (b.nDataLength.toNat - off) 1 = 0 := by
        rw [getD_drop]
        have he : off + (b.nDataLength.toNat - off) = b.nDataLength.toNat := by omega
        rw [he]
        exact hg4
      have hlt : strnlen (b.payload.drop off) n.toNat ≤ b.nDataLength.toNat - off :=
        strnlen_le_zero_at _ _ _ hterm
      have hnIr : nI.toNat = strnlen (b.payload.drop off) n.toNat := by
        simp [hnI, Src.read]
      have heqp : (b₁.payload.drop off).take nI.toNat
          = (b.payload.drop off).take nI.toNat :=
        take_pres_drop _ _ (b.nDataLength.toNat + 1) _ _ htake1 (by omega)
      obtain ⟨s₂, b₂, hstep, rest⟩ := main ((b₁.payload.drop off).take nI.toNat)
        (by rw [heqp]; simp [Src.read])
      refine ⟨s₂, b₂, ?_, rest⟩
      unfold SState.Append
      simp only [SState.GetLength, hdata]
      rw [if_neg hg2']
      simp only [← hnI]
      rw [if_neg hg3']
      simp only [SState.GetBuffer, hpw, hdata1, if_pos hoff]
      exact hstep
    · obtain ⟨s₂, b₂, hstep, rest⟩ := main ((b.payload.drop off).take nI.toNat)
        (by simp [Src.read])
      refine ⟨s₂, b₂, ?_, rest⟩
      unfold SState.Append
      simp only [SState.GetLength, hdata]
      rw [if_neg hg2']
      simp only [← hnI]
      rw [if_neg hg3']
      simp only [SState.GetBuffer, hpw, hdata1, if_neg hoff]
      exact hstep
theorem SState.SetString_ok (s : SState) (b : Buf) (src : Src) (n : Int)
    (hb : s.heap.get s.addr = some b)
    (haddr : s.addr < s.heap.next)
    (hgood : Good b) (hn : 0 < n) :
    ∃ s₂ b₂, s.SetString src n = .ok s₂ ∧
      s₂.heap.get s₂.addr = some b₂ ∧
      Good b₂ ∧
      b₂.nDataLength = n ∧
      (∀ cs : List Int, src = .ext cs → n ≤ (cs.length : Int) →
        s₂.value = cs.take n.toNat) ∧
      s.heap.next ≤ s₂.heap.next ∧
      s₂.addr < s₂.heap.next ∧
      (∀ x, x ≠ s.addr → x < s.heap.next → s₂.heap.get x = s.heap.get x) := by
  obtain ⟨hg1, hg2, hg3, hg4⟩ := hgood
  have hdata : s.data = b := s.data_eq b hb
  have hne : ¬ (n = 0) := by omega
  obtain ⟨s₁, b₁, hpw, hb1, hgood1, hdl1, htake1, hall1, hlt1, hnext1, hframe1, haddr1⟩ :=
    s.PrepareWrite_ok b n hb haddr ⟨hg1, hg2, hg3, hg4⟩ (by omega)
  have hdata1 : s₁.data = b₁ := s₁.data_eq b₁ hb1
  obtain ⟨hq1, hq2, hq3, hq4⟩ := hgood1
  have main : ∀ sc : List Int, sc.length ≤ n.toNat →
      ∃ s₂ b₂,
        SState.SetLength
          ⟨s₁.heap.set s₁.addr ({ b₁ with payload := writeAt b₁.payload 0 sc }), s₁.addr⟩
          n = .ok s₂ ∧
        s₂.heap.get s₂.addr = some b₂ ∧ Good b₂ ∧
        b₂.nDataLength = n ∧
        (sc.length = n.toNat → s₂.value = sc) ∧
        s.heap.next ≤ s₂.heap.next ∧
        s₂.addr < s₂.heap.next ∧
        (∀ x, x ≠ s.addr → x < s.heap.next → s₂.heap.get x = s.heap.get x) := by
    intro sc hsclen
    set bMid : Buf := { b₁ with payload := writeAt b₁.payload 0 sc } with hbMid
    have hmidlen : bMid.payload.length = bMid.nAllocLength.toNat + 1 := by
      simp only [hbMid]
      rw [writeAt_length _ _ _ (by rw [hq3]; omega)]
      exact hq3
    set sMid : SState := ⟨s₁.heap.set s₁.addr bMid, s₁.addr⟩ with hsMid
    have hbMidget : sMid.heap.get sMid.addr = some bMid := by
      simp only [hsMid]
      exact Heap.get_set_eq _ _ _ _ hb1
    obtain ⟨s₂, hsl, hsla, hsln, hslg, hslgood, hslframe⟩ :=
      sMid.SetLength_ok bMid n hbMidget hmidlen (by omega)
        (by simp only [hbMid]; omega)
    refine ⟨s₂, _, hsl, hslg, hslgood, by simp, ?_, ?_, ?_, ?_⟩
    · intro hlen
      have hv : s₂.value = bMid.payload.take n.toNat := by
        unfold SState.value
        rw [SState.data_eq _ _ hslg]
        exact writeAt_take_le _ _ _ _ (le_refl _)
          (by rw [hmidlen]; simp only [hbMid]; omega)
      rw [hv]
      simp only [hbMid]
      have h0 : (0 : Nat) + sc.length = sc.length := by omega
      have := writeAt_take_eq b₁.payload sc 0 (by omega)
      rw [h0] at this
      rw [hlen] at this
      simpa using this
    · rw [hsln]
      simp only [hsMid, Heap.set_next]
      omega
    · rw [hsla, hsln]
      simp only [hsMid, Heap.set_next]
      exact hlt1
    · intro x hx1 hx2
      have hxne : x ≠ s₁.addr := by
        rcases haddr1 with h | h
        · rw [h]; exact hx1
        · rw [h]; omega
      rw [hslframe x (by simpa [hsMid] using hxne)]
      have hms : sMid.heap.get x = s₁.heap.get x := by
        simp only [hsMid]
        exact Heap.get_set_ne _ _ _ _ hxne
      rw [hms]
      exact hframe1 x hx1 hx2
  cases src with
  | ext cs =>
    obtain ⟨s₂, b₂, hstep, hget, hg, hdl, hval, hn1, hn2, hfr⟩ :=
      main (cs.take n.toNat) (by simp)
    refine ⟨s₂, b₂, ?_, hget, hg, hdl, ?_, hn1, hn2, hfr⟩
    · unfold SState.SetString
      rw [if_neg hne]
      simp only [SState.GetLength, hdata, SState.GetBuffer, hpw, hdata1]
      exact hstep
    · intro cs' hcs hlen
      cases hcs
      refine hval ?_
      simp
      omega
  | inBuf off =>
    by_cases hoff : (off : Int) ≤ b.nDataLength
    · obtain ⟨s₂, b₂, hstep, hget, hg, hdl, hval, hn1, hn2, hfr⟩ :=
        main ((b₁.payload.drop off).take n.toNat) (by simp)
      refine ⟨s₂, b₂, ?_, hget, hg, hdl, ?_, hn1, hn2, hfr⟩
      · unfold SState.SetString
        rw [if_neg hne]
        simp only [SState.GetLength, hdata, SState.GetBuffer, hpw, hdata1, if_pos hoff]
        exact hstep
      · intro cs hcs
        cases hcs
    · obtain ⟨s₂, b₂, hstep, hget, hg, hdl, hval, hn1, hn2, hfr⟩ :=
        main ((b.payload.drop off).take n.toNat) (by simp)
      refine ⟨s₂, b₂, ?_, hget, hg, hdl, ?_, hn1, hn2, hfr⟩
      · unfold SState.SetString
        rw [if_neg hne]
        simp only [SState.GetLength, hdata, SState.GetBuffer, hpw, hdata1, if_neg hoff]
        exact hstep
      · intro cs hcs
        cases hcs

theorem Heap.get_release_dead (h : Heap) (a : Nat) (b : Buf)
    (hb : h.get a = some b) (hr : b.nRefs - 1 ≤ 0) (ha : a ≠ 0) :
    (h.release a).get a = none := by
  unfold Heap.release
  simp only [hb]
  have hcond : ({ b with nRefs := b.nRefs - 1 } : Buf).nRefs ≤ 0 := by simp; omega
  rw [if_pos hcond]
  unfold Heap.free
  rw [if_neg ha]
  simp [Heap.get, Heap.remove, assocGet_remove_eq]

theorem SState.Empty_spec (s : SState) (b : Buf)
    (hb : s.heap.get s.addr = some b) :
    (b.nDataLength = 0 → s.Empty = .ok s) ∧
    (b.nDataLength ≠ 0 → b.IsLocked → s.Empty = s.SetLength 0) ∧
    (b.nDataLength ≠ 0 → ¬ b.IsLocked →
      s.Empty = .ok ⟨((s.heap.release s.addr).getNilString).1, 0⟩) := by
  have hdata : s.data = b := s.data_eq b hb
  refine ⟨?_, ?_, ?_⟩
  · intro h0
    unfold SState.Empty
    simp [hdata, h0]
  · intro h0 hlk
    unfold SState.Empty
    simp [hdata, h0, hlk]
  · intro h0 hlk
    unfold SState.Empty
    simp [hdata, h0, hlk, Heap.getNilString_addr]
theorem SState.PrepareWrite_shared (s : SState) (b : Buf) (n : Int)
    (hb : s.heap.get s.addr = some b) (hsh : 1 < b.nRefs) (hn : 0 ≤ n) :
    s.PrepareWrite n = s.Fork (if b.nDataLength > n then b.nDataLength else n) := by
  have hdata : s.data = b := s.data_eq b hb
  have hsl : (1 - b.nRefs < 0 ∨ b.nAllocLength - n < 0) := by left; omega
  have hshared : b.IsShared = true := by simp [Buf.IsShared]; omega
  unfold SState.PrepareWrite SState.PrepareWrite2
  rw [if_neg (by omega : ¬ n < 0)]
  simp only [hdata, if_pos hsl, hshared, if_true]

theorem SState.GetBuffer0_shared (s : SState) (b : Buf)
    (hb : s.heap.get s.addr = some b) (hsh : 1 < b.nRefs) :
    s.GetBuffer0 = s.Fork b.nDataLength := by
  have hdata : s.data = b := s.data_eq b hb
  have hshared : b.IsShared = true := by simp [Buf.IsShared]; omega
  unfold SState.GetBuffer0
  simp only [hdata, hshared, if_true]

theorem SState.GetBuffer0_unshared (s : SState) (b : Buf)
    (hb : s.heap.get s.addr = some b) (hsh : ¬ 1 < b.nRefs) :
    s.GetBuffer0 = .ok s := by
  have hdata : s.data = b := s.data_eq b hb
  have hshared : ¬ b.IsShared = true := by simp [Buf.IsShared]; omega
  unfold SState.GetBuffer0
  simp only [hdata, hshared, if_false]
  simp [hshared]

theorem SState.GetBuffer0_ok (s : SState) (b : Buf)
    (hb : s.heap.get s.addr = some b)
    (haddr : s.addr < s.heap.next)
    (hgood : Good b) :
    ∃ s₁ b₁, s.GetBuffer0 = .ok s₁ ∧
      s₁.heap.get s₁.addr = some b₁ ∧
      Good b₁ ∧
      b₁.nDataLength = b.nDataLength ∧
      b₁.payload.take (b.nDataLength.toNat + 1)
        = b.payload.take (b.nDataLength.toNat + 1) ∧
      s₁.addr < s₁.heap.next ∧
      s.heap.next ≤ s₁.heap.next ∧
      (∀ x, x ≠ s.addr → x < s.heap.next → s₁.heap.get x = s.heap.get x) := by
  obtain ⟨hg1, hg2, hg3, hg4⟩ := hgood
  by_cases hsh : 1 < b.nRefs
  · rw [s.GetBuffer0_shared b hb hsh]
    obtain ⟨s₁, hstep, ha1, ha2, ha3, ha4, ha5⟩ :=
      s.Fork_ok b b.nDataLength hb haddr hg1 hg3 hg1 hg2
    refine ⟨s₁, forkBuf b b.nDataLength, hstep, ha3,
      forkBuf_good b b.nDataLength ⟨hg1, hg2, hg3, hg4⟩ (le_refl _), rfl,
      forkBuf_take b b.nDataLength ⟨hg1, hg2, hg3, hg4⟩ (le_refl _), ?_, by omega, ?_⟩
    · rw [ha1, ha2]; omega
    · intro x hx1 hx2
      exact ha4 x hx1 (by omega)
  · rw [s.GetBuffer0_unshared b hb hsh]
    exact ⟨s, b, rfl, hb, ⟨hg1, hg2, hg3, hg4⟩, rfl, rfl, haddr, le_refl _,
      fun x _ _ => rfl⟩

theorem SState.SetAt_ok (s : SState) (b : Buf) (i ch : Int)
    (hb : s.heap.get s.addr = some b)
    (haddr : s.addr < s.heap.next)
    (hgood : Good b) (hi0 : 0 ≤ i) (hilt : i < b.nDataLength) :
    ∃ s₂ b₂, s.SetAt i ch = .ok s₂ ∧
      s₂.heap.get s₂.addr = some b₂ ∧ Good b₂ ∧
      b₂.nDataLength = b.nDataLength := by
  have hdata : s.data = b := s.data_eq b hb
  have hguard : ¬ (i < 0 ∨ i ≥ s.GetLength) := by
    simp only [SState.GetLength, hdata]
    omega
  obtain ⟨s₁, b₁, hgb, hb1, hgood1, hdl1, htake1, hlt1, hnext1, hframe1⟩ :=
    s.GetBuffer0_ok b hb haddr hgood
  obtain ⟨hq1, hq2, hq3, hq4⟩ := hgood1
  have hdata1 : s₁.data = b₁ := s₁.data_eq b₁ hb1
  set bMid : Buf := { b₁ with payload := writeAt b₁.payload i.toNat [ch] } with hbMid
  have hmidlen : bMid.payload.length = bMid.nAllocLength.toNat + 1 := by
    simp only [hbMid]
    rw [writeAt_length _ _ _ (by simp; rw [hq3]; omega)]
    exact hq3
  set sMid : SState := ⟨s₁.heap.set s₁.addr bMid, s₁.addr⟩ with hsMid
  have hbMidget : sMid.heap.get sMid.addr = some bMid := by
    simp only [hsMid]
    exact Heap.get_set_eq _ _ _ _ hb1
  obtain ⟨s₂, hsl, hsla, hsln, hslg, hslgood, hslframe⟩ :=
    sMid.SetLength_ok bMid b.nDataLength hbMidget hmidlen (by omega)
      (by simp only [hbMid]; omega)
  refine ⟨s₂, _, ?_, hslg, hslgood, by simp⟩
  unfold SState.SetAt
  rw [if_neg hguard]
  simp only [SState.GetLength, hdata, hgb, hdata1]
  exact hsl

theorem SState.Truncate_ok (s : SState) (b : Buf) (n : Int)
    (hb : s.heap.get s.addr = some b)
    (haddr : s.addr < s.heap.next)
    (hgood : Good b) (hn : 0 ≤ n) :
    ∃ s₂ b₂, s.Truncate n = .ok s₂ ∧
      s₂.heap.get s₂.addr = some b₂ ∧ Good b₂ ∧
      b₂.nDataLength = n := by
  obtain ⟨s₁, b₁, hpw, hb1, hgood1, hdl1, htake1, hall1, hlt1, hnext1, hframe1, haddr1⟩ :=
    s.PrepareWrite_ok b n hb haddr hgood hn
  obtain ⟨hq1, hq2, hq3, hq4⟩ := hgood1
  obtain ⟨s₂, hsl, hsla, hsln, hslg, hslgood, hslframe⟩ :=
    s₁.SetLength_ok b₁ n hb1 hq3 hn hall1
  refine ⟨s₂, _, ?_, hslg, hslgood, by simp⟩
  unfold SState.Truncate
  simp only [SState.GetBuffer, hpw]
  exact hsl

theorem SState.ReleaseBuffer_ok (s : SState) (b : Buf) (n : Int)
    (hb : s.heap.get s.addr = some b)
    (hgood : Good b)
    (hn : n = -1 ∨ (0 ≤ n ∧ n ≤ b.nAllocLength)) :
    ∃ s₂ b₂, s.ReleaseBuffer n = .ok s₂ ∧
      s₂.heap.get s₂.addr = some b₂ ∧ Good b₂ := by
  obtain ⟨hg1, hg2, hg3, hg4⟩ := hgood
  have hdata : s.data = b := s.data_eq b hb
  set m : Int := if n = -1 then (strnlen b.payload b.nAllocLength.toNat : Int) else n
    with hm
  have hm0 : 0 ≤ m := by
    rw [hm]
    split
    · omega
    · omega
  have hma : m ≤ b.nAllocLength := by
    rw [hm]
    split
    · have := strnlen_le_cap b.payload b.nAllocLength.toNat
      omega
    · omega
  obtain ⟨s₂, hsl, hsla, hsln, hslg, hslgood, hslframe⟩ :=
    s.SetLength_ok b m hb hg3 hm0 hma
  refine ⟨s₂, _, ?_, hslg, hslgood⟩
  unfold SState.ReleaseBuffer
  simp only [hdata, ← hm]
  exact hsl

theorem cloneData_share (h : Heap) (a : Nat) (bS : Buf)
    (hS : h.get a = some bS) (hnl : ¬ bS.IsLocked) :
    cloneData h a = .ok (h.set a bS.AddRef, a) := by
  unfold cloneData
  simp only [hS, Option.getD_some]
  rw [if_pos ⟨by simpa using hnl, rfl⟩]

/-- The buffer produced by the deep-copy branch of `CloneData`. -/
def cloneBuf (bS : Buf) : Buf :=
  { pStringMgr := mgrClone bS.pStringMgr, nDataLength := bS.nDataLength,
    nAllocLength := bS.nDataLength, nRefs := 1,
    payload := writeAt (List.replicate (bS.nDataLength.toNat + 1) 0) 0
      (bS.payload.take (bS.nDataLength.toNat + 1)) }

theorem cloneData_deep (h : Heap) (a : Nat) (bS : Buf)
    (hS : h.get a = some bS) (hlk : bS.IsLocked) (hgood : Good bS) :
    cloneData h a = .ok
      ((h.alloc (allocBuf (mgrClone bS.pStringMgr) bS.nDataLength)).1.set h.next
        (cloneBuf bS), h.next) ∧
    Good (cloneBuf bS) := by
  obtain ⟨hg1, hg2, hg3, hg4⟩ := hgood
  constructor
  · unfold cloneData
    simp only [hS, Option.getD_some]
    rw [if_neg (by intro hc; exact absurd hc.1 (by simpa using hlk))]
    have halloc : h.allocate (mgrClone bS.pStringMgr) bS.nDataLength
        = some (h.alloc (allocBuf (mgrClone bS.pStringMgr) bS.nDataLength)) := by
      unfold Heap.allocate
      rw [if_neg (by omega : ¬ bS.nDataLength < 0)]
    simp only [halloc, Heap.alloc_snd, Heap.get_alloc_at]
    rfl
  · have hsl : (bS.payload.take (bS.nDataLength.toNat + 1)).length
        = bS.nDataLength.toNat + 1 := by
      simp [hg3]
      omega
    refine ⟨?_, ?_, ?_, ?_⟩ <;> simp only [cloneBuf]
    · exact hg1
    · exact le_refl _
    · rw [writeAt_length _ _ _ (by rw [hsl]; simp)]
      simp
    · simp only [writeAt, List.take_zero, List.nil_append]
      rw [getD_append_left _ _ _ _ (by rw [hsl]; omega)]
      rw [getD_take _ _ _ _ (by omega)]
      exact hg4

theorem assignOp_self (h : Heap) (a : Nat) : assignOp h a a = .ok (h, a) := by
  unfold assignOp
  simp

theorem assignOp_share_eq (h : Heap) (aD aS : Nat) (bD bS : Buf)
    (hD : h.get aD = some bD) (hS : h.get aS = some bS)
    (hne : aS ≠ aD) (hDlk : ¬ bD.IsLocked) (hmgr : bS.pStringMgr = bD.pStringMgr)
    (hSlk : ¬ bS.IsLocked) :
    assignOp h aD aS = .ok ((h.set aS bS.AddRef).release aD, aS) := by
  unfold assignOp
  simp only [hD, hS, Option.getD_some]
  rw [if_pos hne]
  rw [if_neg (by push_neg; exact ⟨by simpa using hDlk, hmgr⟩)]
  rw [cloneData_share h aS bS hS hSlk]

theorem assignOp_copy_eq (h : Heap) (aD aS : Nat) (bD bS : Buf)
    (hD : h.get aD = some bD) (hS : h.get aS = some bS)
    (hne : aS ≠ aD) (hcond : bD.IsLocked ∨ bS.pStringMgr ≠ bD.pStringMgr) :
    assignOp h aD aS
      = (SState.SetString ⟨h, aD⟩ (.ext bS.payload) bS.nDataLength).map
          (fun s => (s.heap, s.addr)) := by
  unfold assignOp
  simp only [hD, hS, Option.getD_some]
  rw [if_pos hne]
  rw [if_pos hcond]
theorem SState.FreeExtra_ok (s : SState) (b : Buf)
    (hb : s.heap.get s.addr = some b)
    (haddr : s.addr < s.heap.next)
    (hgood : Good b) :
    ∃ s₂ b₂, s.FreeExtra = .ok s₂ ∧
      s₂.heap.get s₂.addr = some b₂ ∧ Good b₂ ∧
      b₂.nDataLength = b.nDataLength := by
  obtain ⟨hg1, hg2, hg3, hg4⟩ := hgood
  have hdata : s.data = b := s.data_eq b hb
  by_cases htight : b.nAllocLength = b.nDataLength
  · refine ⟨s, b, ?_, hb, ⟨hg1, hg2, hg3, hg4⟩, rfl⟩
    unfold SState.FreeExtra
    simp only [hdata, if_pos htight]
  · by_cases hlk : b.IsLocked
    · refine ⟨s, b, ?_, hb, ⟨hg1, hg2, hg3, hg4⟩, rfl⟩
      unfold SState.FreeExtra
      simp only [hdata, if_neg htight]
      rw [if_neg (by simp [hlk])]
    · have halloc : s.heap.allocate b.pStringMgr b.nDataLength
          = some (s.heap.alloc (allocBuf b.pStringMgr b.nDataLength)) := by
        unfold Heap.allocate
        rw [if_neg (by omega : ¬ b.nDataLength < 0)]
      set nb2 : Buf :=
        { allocBuf b.pStringMgr b.nDataLength with
          payload := writeAt (allocBuf b.pStringMgr b.nDataLength).payload 0
            (b.payload.take b.nDataLength.toNat) } with hnb2
      have hsrclen : (b.payload.take b.nDataLength.toNat).length
          = b.nDataLength.toNat := by
        simp [hg3]
        omega
      have hnb2len : nb2.payload.length = nb2.nAllocLength.toNat + 1 := by
        simp only [hnb2]
        rw [writeAt_length _ _ _ (by rw [hsrclen]; simp [allocBuf])]
        simp [allocBuf]
      set h2 : Heap := (s.heap.alloc (allocBuf b.pStringMgr b.nDataLength)).1.set
        s.heap.next nb2 with hh2
      set sMid : SState := ⟨h2.release s.addr, s.heap.next⟩ with hsMid
      have hgetMid : sMid.heap.get sMid.addr = some nb2 := by
        simp only [hsMid, hh2]
        rw [Heap.get_release_ne _ _ _ (by omega : s.heap.next ≠ s.addr)]
        exact Heap.get_set_eq _ _ _ _ (Heap.get_alloc_at _ _)
      obtain ⟨s₂, hsl, hsla, hsln, hslg, hslgood, hslframe⟩ :=
        sMid.SetLength_ok nb2 b.nDataLength hgetMid hnb2len hg1
          (by simp only [hnb2]; simp [allocBuf])
      refine ⟨s₂, _, ?_, hslg, hslgood, by simp⟩
      unfold SState.FreeExtra
      simp only [hdata, if_neg htight]
      rw [if_pos (by simp [hlk])]
      simp only [halloc, Heap.alloc_snd, Heap.get_alloc_at, ← hnb2, ← hh2, ← hsMid]
      exact hsl

theorem mkFromChars_ok (h : Heap) (m : Nat) (cs : List Int) (n : Int) (hn : 0 ≤ n) :
    ∃ s₂ b₂, mkFromChars h m (some cs) n = .ok s₂ ∧
      s₂.heap.get s₂.addr = some b₂ ∧ Good b₂ ∧
      b₂.nDataLength = n := by
  have halloc : h.allocate m n = some (h.alloc (allocBuf m n)) := by
    unfold Heap.allocate
    rw [if_neg (by omega : ¬ n < 0)]
  set s0 : SState := ⟨(h.alloc (allocBuf m n)).1, h.next⟩ with hs0
  have hget0 : s0.heap.get s0.addr = some (allocBuf m n) := Heap.get_alloc_at _ _
  obtain ⟨s₁, hsl, hsla, hsln, hslg, hslgood, hslframe⟩ :=
    s0.SetLength_ok (allocBuf m n) n hget0 (by simp [allocBuf]) hn
      (by simp [allocBuf])
  set bL : Buf :=
    { pStringMgr := m, nDataLength := n, nAllocLength := n, nRefs := 1,
      payload := writeAt (List.replicate (n.toNat + 1) 0) n.toNat [0] } with hbL
  have hslg2 : s₁.heap.get s₁.addr = some bL := hslg
  have hgood2 : Good bL := hslgood
  obtain ⟨hq1, hq2, hq3, hq4⟩ := hgood2
  have hdata1 : s₁.data = bL := s₁.data_eq _ hslg2
  set b₂ : Buf :=
    { bL with payload := writeAt bL.payload 0 (cs.take n.toNat) } with hb₂
  have hbLlen : bL.payload.length = n.toNat + 1 := by
    simpa [hbL] using hq3
  refine ⟨⟨s₁.heap.set s₁.addr b₂, s₁.addr⟩, b₂, ?_, ?_, ?_, by simp [hb₂, hbL]⟩
  · unfold mkFromChars
    rw [if_neg (by simp)]
    simp only [halloc, Heap.alloc_snd, ← hs0, hsl, hdata1, Option.getD_some, ← hb₂]
  · exact Heap.get_set_eq _ _ _ _ hslg2
  · refine ⟨by simp only [hb₂, hbL]; exact hn,
      by simp only [hb₂, hbL]; exact le_refl n, ?_, ?_⟩
    · simp only [hb₂]
      rw [writeAt_length _ _ _ (by rw [hbLlen]; simp)]
      exact hbLlen
    · simp only [hb₂]
      rw [writeAt_getD_ge _ _ _ _ _ (by simp [hbL]) (by omega)]
      simpa [hbL] using hq4

theorem mkFromMgr_ok (h : Heap) (bn : Buf)
    (hnil : h.get 0 = some bn) (hgood : Good bn) :
    (mkFromMgr h).heap.get (mkFromMgr h).addr = some bn.AddRef ∧ Good bn.AddRef := by
  constructor
  · unfold mkFromMgr
    simp only [Heap.getNilString_addr]
    exact Heap.get_getNilString h bn hnil
  · obtain ⟨h1, h2, h3, h4⟩ := hgood
    exact ⟨h1, h2, h3, h4⟩
/-- The observable value of a buffer: its first `nDataLength` cells. -/
def Buf.value (b : Buf) : List Int := b.payload.take b.nDataLength.toNat

theorem SState.value_eq (s : SState) (b : Buf) (hb : s.heap.get s.addr = some b) :
    s.value = b.value := by
  unfold SState.value Buf.value
  rw [s.data_eq b hb]

/-- The buffer attached at `a` exists and satisfies the header invariant. -/
def GoodAt (h : Heap) (a : Nat) : Prop := ∃ b, h.get a = some b ∧ Good b

theorem Buf.addRef_release (b : Buf) :
    ({ b.AddRef with nRefs := b.AddRef.nRefs - 1 } : Buf) = b := by
  cases b
  simp [Buf.AddRef]

theorem Good_addRef (b : Buf) (hgood : Good b) : Good b.AddRef := by
  obtain ⟨h1, h2, h3, h4⟩ := hgood
  exact ⟨h1, h2, h3, h4⟩

theorem SState.Empty_ok (s : SState) (b bn : Buf)
    (hb : s.heap.get s.addr = some b)
    (hnil : s.heap.get 0 = some bn)
    (hgood : Good b) (hgoodn : Good bn) (hbn0 : bn.nDataLength = 0) :
    ∃ s₂, s.Empty = .ok s₂ ∧ GoodAt s₂.heap s₂.addr := by
  obtain ⟨he0, helk, henl⟩ := s.Empty_spec b hb
  by_cases h0 : b.nDataLength = 0
  · exact ⟨s, he0 h0, b, hb, hgood⟩
  · by_cases hlk : b.IsLocked
    · rw [helk h0 hlk]
      obtain ⟨hg1, hg2, hg3, hg4⟩ := hgood
      obtain ⟨s₂, hsl, hsla, hsln, hslg, hslgood, hslframe⟩ :=
        s.SetLength_ok b 0 hb hg3 (le_refl 0) (by omega)
      exact ⟨s₂, hsl, _, hslg, hslgood⟩
    · rw [henl h0 hlk]
      have haddr0 : s.addr ≠ 0 := by
        intro hc
        rw [hc, hnil] at hb
        cases hb
        exact h0 hbn0
      refine ⟨_, rfl, bn.AddRef, ?_, Good_addRef bn hgoodn⟩
      have hn2 : (s.heap.release s.addr).get 0 = some bn := by
        rw [Heap.get_release_ne _ _ _ (Ne.symm haddr0)]
        exact hnil
      exact Heap.get_getNilString _ _ hn2

theorem SState.SetString_any_ok (s : SState) (b bn : Buf) (src : Src) (n : Int)
    (hb : s.heap.get s.addr = some b)
    (hnil : s.heap.get 0 = some bn)
    (haddr : s.addr < s.heap.next)
    (hgood : Good b) (hgoodn : Good bn) (hbn0 : bn.nDataLength = 0)
    (hn : 0 ≤ n) :
    ∃ s₂, s.SetString src n = .ok s₂ ∧ GoodAt s₂.heap s₂.addr := by
  by_cases h0 : n = 0
  · have hss : s.SetString src n = s.Empty := by
      unfold SState.SetString
      rw [if_pos h0]
    rw [hss]
    exact s.Empty_ok b bn hb hnil hgood hgoodn hbn0
  · obtain ⟨s₂, b₂, hstep, hget, hg, _, _, _, _, _⟩ :=
      s.SetString_ok b src n hb haddr hgood (by omega)
    exact ⟨s₂, hstep, b₂, hget, hg⟩

theorem mkCopy_ok (h : Heap) (a : Nat) (bS : Buf)
    (hS : h.get a = some bS) (hgood : Good bS) :
    ∃ s₂, mkCopy h a = .ok s₂ ∧ GoodAt s₂.heap s₂.addr := by
  by_cases hlk : bS.IsLocked
  · obtain ⟨heq, hg⟩ := cloneData_deep h a bS hS hlk hgood
    refine ⟨_, by unfold mkCopy; rw [heq], cloneBuf bS, ?_, hg⟩
    exact Heap.get_set_eq _ _ _ _ (Heap.get_alloc_at _ _)
  · rw [show mkCopy h a = .ok ⟨h.set a bS.AddRef, a⟩ by
      unfold mkCopy; rw [cloneData_share h a bS hS hlk]]
    exact ⟨_, rfl, bS.AddRef, Heap.get_set_eq _ _ _ _ hS, Good_addRef bS hgood⟩

theorem assignOp_ok (h : Heap) (aD aS : Nat) (bD bS bn : Buf)
    (hD : h.get aD = some bD) (hS : h.get aS = some bS)
    (hnil : h.get 0 = some bn)
    (haD : aD < h.next)
    (hgoodD : Good bD) (hgoodS : Good bS)
    (hgoodn : Good bn) (hbn0 : bn.nDataLength = 0) :
    ∃ r, assignOp h aD aS = .ok r ∧ GoodAt r.1 r.2 := by
  by_cases hself : aS = aD
  · rw [hself, assignOp_self]
    exact ⟨(h, aD), rfl, bD, hD, hgoodD⟩
  · by_cases hcond : (bD.IsLocked : Prop) ∨ bS.pStringMgr ≠ bD.pStringMgr
    · rw [assignOp_copy_eq h aD aS bD bS hD hS hself hcond]
      obtain ⟨s₂, hstep, hga⟩ :=
        SState.SetString_any_ok ⟨h, aD⟩ bD bn (.ext bS.payload) bS.nDataLength
          hD hnil haD hgoodD hgoodn hbn0 (by obtain ⟨hg1, _, _, _⟩ := hgoodS; omega)
      rw [hstep]
      exact ⟨(s₂.heap, s₂.addr), rfl, hga⟩
    · push_neg at hcond
      obtain ⟨hnlk, hmgr⟩ := hcond
      by_cases hSlk : bS.IsLocked
      · rw [show assignOp h aD aS = .ok ((((h.alloc
              (allocBuf (mgrClone bS.pStringMgr) bS.nDataLength)).1.set h.next
              (cloneBuf bS))).release aD, h.next) by
          unfold assignOp
          simp only [hD, hS, Option.getD_some]
          rw [if_pos hself]
          rw [if_neg (by push_neg; exact ⟨by simpa using hnlk, hmgr⟩)]
          rw [(cloneData_deep h aS bS hS hSlk hgoodS).1]]
        refine ⟨_, rfl, cloneBuf bS, ?_, (cloneData_deep h aS bS hS hSlk hgoodS).2⟩
        simp only []
        rw [Heap.get_release_ne _ _ _ (by omega : h.next ≠ aD)]
        exact Heap.get_set_eq _ _ _ _ (Heap.get_alloc_at _ _)
      · rw [assignOp_share_eq h aD aS bD bS hD hS hself (by simpa using hnlk) hmgr
          hSlk]
        refine ⟨_, rfl, bS.AddRef, ?_, Good_addRef bS hgoodS⟩
        simp only []
        rw [Heap.get_release_ne _ _ _ hself]
        exact Heap.get_set_eq _ _ _ _ hS
/-- C1: requesting mutable access (`GetBuffer`, `PrepareWrite`, `LockBuffer`)
on a shared buffer routes through `Fork`, which allocates a new buffer from a
cloned manager, copies `min(oldLength, requestedLength) + 1` character units
(terminator included), sets the new buffer's data length to the old length,
releases the old buffer (share count drops by exactly 1), and attaches the
new buffer, whose share count is exactly 1 afterwards. -/
theorem claim_C1 (s : SState) (b : Buf)
    (hb : s.heap.get s.addr = some b)
    (haddr : s.addr < s.heap.next)
    (hgood : Good b)
    (hshared : 1 < b.nRefs) :
    (s.GetBuffer0 = s.Fork b.nDataLength) ∧
    (∀ n : Int, 0 ≤ n →
      s.PrepareWrite n = s.Fork (if b.nDataLength > n then b.nDataLength else n)) ∧
    (∀ s₁, s.Fork b.nDataLength = .ok s₁ →
      s.LockBuffer = .ok ⟨s₁.heap.set s₁.addr s₁.data.Lock, s₁.addr⟩) ∧
    (∀ L : Int, 0 ≤ L → ∃ s₁, s.Fork L = .ok s₁ ∧
      s₁.addr = s.heap.next ∧
      s₁.data.pStringMgr = mgrClone b.pStringMgr ∧
      s₁.data.nRefs = 1 ∧
      s₁.data.nDataLength = b.nDataLength ∧
      s₁.data.nAllocLength = L ∧
      s₁.data.payload.take ((min b.nDataLength L).toNat + 1)
        = b.payload.take ((min b.nDataLength L).toNat + 1) ∧
      s₁.heap.get s.addr = some { b with nRefs := b.nRefs - 1 }) := by
  obtain ⟨hg1, hg2, hg3, hg4⟩ := hgood
  have hdata : s.data = b := s.data_eq b hb
  refine ⟨s.GetBuffer0_shared b hb hshared, ?_, ?_, ?_⟩
  · intro n hn
    exact s.PrepareWrite_shared b n hb hshared hn
  · intro s₁ hfork
    unfold SState.LockBuffer
    have hshb : b.IsShared = true := by simp [Buf.IsShared]; omega
    simp only [hdata, hshb, if_true, hfork]
  · intro L hL
    obtain ⟨s₁, hstep, ha1, ha2, ha3, ha4, ha5⟩ := s.Fork_ok b L hb haddr hL hg3 hg1 hg2
    have hdata1 : s₁.data = forkBuf b L := s₁.data_eq _ ha3
    have htk : (forkBuf b L).payload.take ((min b.nDataLength L).toNat + 1)
        = b.payload.take ((min b.nDataLength L).toNat + 1) := by
      have hlen : (b.payload.take ((min b.nDataLength L).toNat + 1)).length
          = (min b.nDataLength L).toNat + 1 := by
        simp [hg3]
        omega
      simp only [forkBuf]
      rw [List.take_append_eq_append_take, hlen]
      simp
    exact ⟨s₁, hstep, ha1, by rw [hdata1]; rfl, by rw [hdata1]; rfl,
      by rw [hdata1]; rfl, by rw [hdata1]; rfl, by rw [hdata1]; exact htk,
      ha5 (by omega)⟩

def c1Buf : Buf :=
  { pStringMgr := 5, nDataLength := 2, nAllocLength := 2, nRefs := 2,
    payload := [97, 98, 0] }

def c1State : SState := ⟨⟨[(0, nilBufInit), (1, c1Buf)], 2⟩, 1⟩

theorem claim_C1_witness : c1State.GetBuffer0 = c1State.Fork c1Buf.nDataLength :=
  (claim_C1 c1State c1Buf rfl (by decide) (by decide) (by decide)).1

/-- C8: on a unique buffer, `Lock` then `Unlock` restores the buffer exactly
(content, length and share count 1); `LockBuffer` locks a unique buffer in
place, and on a shared buffer first forks, so the lock is only ever applied
to a buffer whose share count is exactly 1. -/
theorem claim_C8 (s : SState) (b : Buf)
    (hb : s.heap.get s.addr = some b)
    (haddr : s.addr < s.heap.next)
    (hgood : Good b) :
    (∀ c : Buf, c.nRefs = 1 → c.Lock.Unlock = c) ∧
    (b.nRefs = 1 → ∃ s₁, s.LockBuffer = .ok s₁ ∧ s₁.addr = s.addr ∧
      s₁.heap.get s.addr = some b.Lock ∧ b.Lock.nRefs = -1 ∧
      (s₁.UnlockBuffer).addr = s.addr ∧
      (s₁.UnlockBuffer).heap.get s.addr = some b) ∧
    (1 < b.nRefs → ∃ sf, s.Fork b.nDataLength = .ok sf ∧
      s.LockBuffer = .ok ⟨sf.heap.set sf.addr sf.data.Lock, sf.addr⟩ ∧
      sf.data.nRefs = 1) := by
  obtain ⟨hg1, hg2, hg3, hg4⟩ := hgood
  have hdata : s.data = b := s.data_eq b hb
  have hroundtrip : ∀ c : Buf, c.nRefs = 1 → c.Lock.Unlock = c := by
    intro c hc
    cases c
    simp only [Buf.Lock, Buf.Unlock, Buf.IsLocked] at *
    subst hc
    simp
  refine ⟨hroundtrip, ?_, ?_⟩
  · intro hone
    have hnsh : ¬ b.IsShared = true := by simp [Buf.IsShared]; omega
    have hstep : s.LockBuffer = .ok ⟨s.heap.set s.addr b.Lock, s.addr⟩ := by
      unfold SState.LockBuffer
      simp only [hdata, hnsh, if_false]
      simp only [Bool.false_eq_true, if_false, hdata]
    refine ⟨_, hstep, rfl, ?_, ?_, ?_, ?_⟩
    · exact Heap.get_set_eq _ _ _ _ hb
    · simp [Buf.Lock, hone]
    · rfl
    · unfold SState.UnlockBuffer
      simp only []
      have hget1 : (⟨s.heap.set s.addr b.Lock, s.addr⟩ : SState).data = b.Lock :=
        SState.data_eq _ _ (Heap.get_set_eq _ _ _ _ hb)
      rw [hget1, hroundtrip b hone]
      exact Heap.get_set_eq _ _ _ _ (Heap.get_set_eq _ _ _ _ hb)
  · intro hsh
    obtain ⟨sf, hstep, ha1, ha2, ha3, ha4, ha5⟩ :=
      s.Fork_ok b b.nDataLength hb haddr hg1 hg3 hg1 hg2
    refine ⟨sf, hstep, ?_, ?_⟩
    · unfold SState.LockBuffer
      have hshb : b.IsShared = true := by simp [Buf.IsShared]; omega
      simp only [hdata, hshb, if_true, hstep]
    · rw [sf.data_eq _ ha3]
      rfl

def c8Buf : Buf :=
  { pStringMgr := 5, nDataLength := 1, nAllocLength := 1, nRefs := 1,
    payload := [99, 0] }

def c8State : SState := ⟨⟨[(0, nilBufInit), (1, c8Buf)], 2⟩, 1⟩

theorem claim_C8_witness :
    ∃ s₁, c8State.LockBuffer = .ok s₁ ∧ s₁.addr = c8State.addr ∧
      s₁.heap.get c8State.addr = some c8Buf.Lock ∧ c8Buf.Lock.nRefs = -1 ∧
      (s₁.UnlockBuffer).addr = c8State.addr ∧
      (s₁.UnlockBuffer).heap.get c8State.addr = some c8Buf :=
  (claim_C8 c8State c8Buf rfl (by decide) (by decide)).2.1 (by decide)
/-- C2 (amended): for an unshared buffer of capacity `A` and request `L`
with `A < L`, the capacity requested from the allocator's reallocation is
`max L candidate`, where the candidate is `A + A/2` whenever `A` is at or
below 1 GiB and `A + 1048576` when `A` is strictly above 1 GiB; with
`A ≥ L` no reallocation happens at all. -/
theorem claim_C2 (s : SState) (b : Buf)
    (hb : s.heap.get s.addr = some b)
    (haddr : s.addr < s.heap.next)
    (hgood : Good b)
    (hunshared : b.nRefs = 1) :
    (∀ L : Int, 0 ≤ L → L ≤ b.nAllocLength → s.PrepareWrite L = .ok s) ∧
    (∀ L : Int, b.nAllocLength < L →
      ∃ s₁, s.PrepareWrite L = .ok s₁ ∧
        s₁.heap.get s₁.addr = some
          { b with nAllocLength := max L (growCandidate b.nAllocLength),
                   payload := resize b.payload
                     ((max L (growCandidate b.nAllocLength)).toNat + 1) } ∧
        growCandidate b.nAllocLength
          = (if b.nAllocLength ≤ 1073741824
             then b.nAllocLength + Int.tdiv b.nAllocLength 2
             else b.nAllocLength + 1048576)) := by
  obtain ⟨hg1, hg2, hg3, hg4⟩ := hgood
  have hdata : s.data = b := s.data_eq b hb
  constructor
  · intro L hL0 hLa
    unfold SState.PrepareWrite
    rw [if_neg (by omega : ¬ L < 0)]
    simp only [hdata]
    rw [if_neg (by omega : ¬ (1 - b.nRefs < 0 ∨ b.nAllocLength - L < 0))]
  · intro L hgt
    have hL0 : 0 ≤ L := by omega
    have hgc0 : 0 ≤ growCandidate b.nAllocLength := by
      unfold growCandidate
      split
      · omega
      · have : 0 ≤ Int.tdiv b.nAllocLength 2 := Int.tdiv_nonneg (by omega) (by omega)
        omega
    set R : Int := max L (growCandidate b.nAllocLength) with hR
    have hpw : s.PrepareWrite L = s.Reallocate R := by
      unfold SState.PrepareWrite SState.PrepareWrite2
      rw [if_neg (by omega : ¬ L < 0)]
      simp only [hdata]
      rw [if_pos (by omega : (1 - b.nRefs < 0 ∨ b.nAllocLength - L < 0))]
      rw [if_neg (by omega : ¬ b.nDataLength > L)]
      have hnsh : ¬ b.IsShared = true := by simp [Buf.IsShared]; omega
      simp only [hnsh, Bool.false_eq_true, if_false]
      rw [if_pos hgt]
      congr 1
      rw [hR]
      rcases le_or_lt L (growCandidate b.nAllocLength) with hc | hc
      · rw [if_neg (by omega), max_eq_right hc]
      · rw [if_pos (by omega), max_eq_left (by omega)]
    obtain ⟨s₁, hstep, ha1, ha2, ha3, ha4⟩ :=
      s.Reallocate_ok b R hb haddr (by omega : b.nAllocLength < R) (by omega)
    refine ⟨s₁, by rw [hpw]; exact hstep, ha3, ?_⟩
    unfold growCandidate
    rcases le_or_lt b.nAllocLength 1073741824 with hc | hc
    · rw [if_neg (by omega), if_pos hc]
    · rw [if_pos hc, if_neg (by omega)]

def c2wBuf : Buf :=
  { pStringMgr := 5, nDataLength := 2, nAllocLength := 4, nRefs := 1,
    payload := [97, 98, 0, 0, 0] }

def c2wState : SState := ⟨⟨[(0, nilBufInit), (1, c2wBuf)], 2⟩, 1⟩

theorem claim_C2_witness : c2wState.PrepareWrite 3 = .ok c2wState :=
  (claim_C2 c2wState c2wBuf rfl (by decide) (by decide) rfl).1 3 (by decide)
    (by decide)

def c2Buf : Buf :=
  { pStringMgr := 5, nDataLength := 0, nAllocLength := 1073741824, nRefs := 1,
    payload := List.replicate 1073741825 0 }

def c2State : SState := ⟨⟨[(1, c2Buf)], 2⟩, 1⟩

/-- C2 counterexample: at current capacity of exactly 1 GiB (the claim's
"at or above the threshold" case) and request `L = A + 1`, the code grows by
the 1.5x rule and asks the allocator for 1610612736 cells, not the
`max(L, A + 1048576) = 1074790400` the claim predicts. -/
theorem claim_C2_counterexample :
    (∃ s₁, c2State.PrepareWrite 1073741825 = .ok s₁ ∧
      s₁.data.nAllocLength = 1610612736) ∧
    (1610612736 : Int) ≠ max 1073741825 (1073741824 + 1048576) := by
  constructor
  · have hb : c2State.heap.get 1 = some c2Buf := rfl
    have hdata : c2State.data = c2Buf := rfl
    have hgc : growCandidate c2Buf.nAllocLength = 1610612736 := by decide
    have hpw : c2State.PrepareWrite 1073741825 = c2State.Reallocate 1610612736 := by
      unfold SState.PrepareWrite SState.PrepareWrite2
      rw [if_neg (by decide : ¬ (1073741825 : Int) < 0)]
      simp only [hdata]
      rw [if_pos (by decide :
        (1 - c2Buf.nRefs < 0 ∨ c2Buf.nAllocLength - 1073741825 < 0))]
      rw [if_neg (by decide : ¬ c2Buf.nDataLength > 1073741825)]
      have hnsh : ¬ c2Buf.IsShared = true := by decide
      simp only [hnsh, Bool.false_eq_true, if_false]
      rw [if_pos (by decide : c2Buf.nAllocLength < 1073741825)]
      rw [hgc]
      rw [if_neg (by decide : ¬ (1610612736 : Int) < 1073741825)]
    obtain ⟨s₁, hstep, ha1, ha2, ha3, ha4⟩ :=
      SState.Reallocate_ok c2State c2Buf 1610612736 hb (by decide) (by decide)
        (by decide)
    refine ⟨s₁, by rw [hpw]; exact hstep, ?_⟩
    rw [SState.data_eq s₁ _ ha3]
  · decide

theorem SState.Append_err_neg (s : SState) (src : Src) (n : Int) (hn : n < 0) :
    s.Append src n = .error "Invalid arguments" := by
  unfold SState.Append
  rw [if_pos (by omega : ¬ (0 ≤ n))]

theorem SState.Append_err_over (s : SState) (b : Buf) (src : Src) (n : Int)
    (hb : s.heap.get s.addr = some b) (hn : 0 ≤ n)
    (hover : INT_MAX < b.nDataLength + (strnlen (src.read b.payload) n.toNat : Int)) :
    s.Append src n = .error "Invalid arguments" := by
  have hdata : s.data = b := s.data_eq b hb
  unfold SState.Append
  simp only [SState.GetLength, hdata]
  rw [if_neg (by omega : ¬ ¬ (0 ≤ n))]
  rw [if_pos (by omega :
    ¬ (b.nDataLength ≤ INT_MAX - (strnlen (src.read b.payload) n.toNat : Int)))]

/-- C5 (amended): `Append` commits new length = old length plus the
`StringLengthN`-clamped incoming length; a negative incoming length is
rejected with an invalid-argument fault, as is a clamped sum exceeding
`INT_MAX`; rejections are raised before any mutation of the handle. -/
theorem claim_C5 (s : SState) (b : Buf) (src : Src) (n : Int)
    (hb : s.heap.get s.addr = some b)
    (haddr : s.addr < s.heap.next)
    (hgood : Good b) :
    (n < 0 → s.Append src n = .error "Invalid arguments") ∧
    (0 ≤ n → INT_MAX < b.nDataLength + (strnlen (src.read b.payload) n.toNat : Int) →
      s.Append src n = .error "Invalid arguments") ∧
    (0 ≤ n → b.nDataLength + (strnlen (src.read b.payload) n.toNat : Int) ≤ INT_MAX →
      ∃ s₂ b₂, s.Append src n = .ok s₂ ∧ s₂.heap.get s₂.addr = some b₂ ∧
        b₂.nDataLength
          = b.nDataLength + (strnlen (src.read b.payload) n.toNat : Int)) := by
  refine ⟨fun hn => s.Append_err_neg src n hn,
    fun hn hover => s.Append_err_over b src n hb hn hover, ?_⟩
  intro hn hmax
  obtain ⟨s₂, b₂, h1, h2, _, h4, _, _, _, _⟩ :=
    s.Append_ok b src n hb haddr hgood hn hmax
  exact ⟨s₂, b₂, h1, h2, h4⟩

def c5Buf : Buf :=
  { pStringMgr := 5, nDataLength := 2, nAllocLength := 4, nRefs := 1,
    payload := [97, 98, 0, 0, 0] }

def c5State : SState := ⟨⟨[(0, nilBufInit), (1, c5Buf)], 2⟩, 1⟩

/-- C5 counterexample: appending the 3-character span `"c\0d"` to `"ab"`
commits length 3 (the span is clamped at its embedded terminator), not the
`oldLength + nLength = 5` the claim states. -/
theorem claim_C5_counterexample :
    (c5State.Append (.ext [99, 0, 100]) 3).map SState.GetLength = .ok 3 ∧
    (3 : Int) ≠ c5Buf.nDataLength + 3 := ⟨rfl, by decide⟩

theorem claim_C5_witness :
    c5State.Append (.ext [107]) (-2) = .error "Invalid arguments" :=
  (claim_C5 c5State c5Buf (.ext [107]) (-2) rfl (by decide) (by decide)).1
    (by decide)

/-- C10: `Append(pszSrc, nLength)` with `nLength ≥ 0` copies exactly
`strnlen(pszSrc, nLength)` characters — the incoming length is silently
clamped at the first terminator in the span — and commits
`oldLength + strnlen(pszSrc, nLength)`. -/
theorem claim_C10 (s : SState) (b : Buf) (src : Src) (n : Int)
    (hb : s.heap.get s.addr = some b)
    (haddr : s.addr < s.heap.next)
    (hgood : Good b) (hn : 0 ≤ n)
    (hmax : b.nDataLength + (strnlen (src.read b.payload) n.toNat : Int) ≤ INT_MAX) :
    ∃ s₂ b₂, s.Append src n = .ok s₂ ∧
      s₂.heap.get s₂.addr = some b₂ ∧
      b₂.nDataLength = b.nDataLength + (strnlen (src.read b.payload) n.toNat : Int) ∧
      b₂.value = b.value
        ++ (src.read b.payload).take (strnlen (src.read b.payload) n.toNat) := by
  obtain ⟨s₂, b₂, h1, h2, _, h4, h5, _, _, _⟩ :=
    s.Append_ok b src n hb haddr hgood hn hmax
  refine ⟨s₂, b₂, h1, h2, h4, ?_⟩
  have hv := s₂.value_eq b₂ h2
  rw [← hv, h5]
  rfl

def c10Buf : Buf :=
  { pStringMgr := 5, nDataLength := 2, nAllocLength := 4, nRefs := 1,
    payload := [97, 98, 0, 0, 0] }

def c10State : SState := ⟨⟨[(0, nilBufInit), (1, c10Buf)], 2⟩, 1⟩

theorem claim_C10_witness :
    ∃ s₂ b₂, c10State.Append (.ext [99, 0, 100]) 3 = .ok s₂ ∧
      s₂.heap.get s₂.addr = some b₂ ∧
      b₂.nDataLength = c10Buf.nDataLength
        + (strnlen ((Src.ext [99, 0, 100]).read c10Buf.payload) ((3 : Int)).toNat : Int) ∧
      b₂.value = c10Buf.value
        ++ ((Src.ext [99, 0, 100]).read c10Buf.payload).take
            (strnlen ((Src.ext [99, 0, 100]).read c10Buf.payload) ((3 : Int)).toNat) :=
  claim_C10 c10State c10Buf (.ext [99, 0, 100]) 3 rfl (by decide) (by decide)
    (by decide) (by decide)

/-- C4: appending a span that lies inside the string's own current content
(offset within `[0, oldLength]`) yields the same final string value as first
copying that span to an independent temporary and appending the temporary,
whether or not the append forks or relocates the payload. -/
theorem claim_C4 (s : SState) (b : Buf) (off : Nat) (n : Int)
    (hb : s.heap.get s.addr = some b)
    (haddr : s.addr < s.heap.next)
    (hgood : Good b)
    (_hoff : (off : Int) ≤ b.nDataLength) (hn : 0 ≤ n) :
    (s.Append (.inBuf off) n).map SState.value
      = (s.Append (.ext ((b.payload.drop off).take n.toNat)) n).map SState.value := by
  obtain ⟨hg1, hg2, hg3, hg4⟩ := hgood
  have hsn : strnlen ((b.payload.drop off).take n.toNat) n.toNat
      = strnlen (b.payload.drop off) n.toNat := strnlen_take _ _
  by_cases hmax : b.nDataLength + (strnlen (b.payload.drop off) n.toNat : Int) ≤ INT_MAX
  · obtain ⟨s₂, b₂, hstepL, hget2, _, _, hvalL, _, _, _⟩ :=
      s.Append_ok b (.inBuf off) n hb haddr ⟨hg1, hg2, hg3, hg4⟩ hn hmax
    obtain ⟨t₂, c₂, hstepR, hget3, _, _, hvalR, _, _, _⟩ :=
      s.Append_ok b (.ext ((b.payload.drop off).take n.toNat)) n hb haddr
        ⟨hg1, hg2, hg3, hg4⟩ hn (by simpa [Src.read, hsn] using hmax)
    rw [hstepL, hstepR]
    show Except.ok s₂.value = Except.ok t₂.value
    have hcap : strnlen (b.payload.drop off) n.toNat ≤ n.toNat :=
      strnlen_le_cap _ _
    have htt : ((b.payload.drop off).take n.toNat).take
          (strnlen (b.payload.drop off) n.toNat)
        = (b.payload.drop off).take (strnlen (b.payload.drop off) n.toNat) := by
      rw [List.take_take, Nat.min_eq_left hcap]
    rw [hvalL, hvalR]
    simp only [Src.read, hsn, htt]
  · have herrL := s.Append_err_over b (.inBuf off) n hb hn (by simpa using
      (by omega : INT_MAX < b.nDataLength
        + (strnlen (b.payload.drop off) n.toNat : Int)))
    have herrR := s.Append_err_over b (.ext ((b.payload.drop off).take n.toNat)) n
      hb hn (by simpa [Src.read, hsn] using
      (by omega : INT_MAX < b.nDataLength
        + (strnlen (b.payload.drop off) n.toNat : Int)))
    rw [herrL, herrR]

def c4Buf : Buf :=
  { pStringMgr := 5, nDataLength := 2, nAllocLength := 2, nRefs := 1,
    payload := [97, 98, 0] }

def c4State : SState := ⟨⟨[(0, nilBufInit), (1, c4Buf)], 2⟩, 1⟩

theorem claim_C4_witness :
    (c4State.Append (.inBuf 0) 2).map SState.value
      = (c4State.Append (.ext ((c4Buf.payload.drop 0).take ((2 : Int)).toNat)) 2).map
          SState.value :=
  claim_C4 c4State c4Buf 0 2 rfl (by decide) (by decide) (by decide) (by decide)
/-- C6: emptying a non-empty, non-locked handle releases the old buffer and
attaches the nil singleton (no shrinking in place); a locked buffer only has
its length reset to zero, staying attached; an already-empty handle is left
untouched. -/
theorem claim_C6 (s : SState) (b bn : Buf)
    (hb : s.heap.get s.addr = some b)
    (hnil : s.heap.get 0 = some bn)
    (hgood : Good b)
    (hbn0 : bn.nDataLength = 0) :
    (b.nDataLength = 0 → s.Empty = .ok s) ∧
    (b.nDataLength ≠ 0 → b.IsLocked →
      ∃ s₂, s.Empty = .ok s₂ ∧ s₂.addr = s.addr ∧
        s₂.heap.get s.addr
          = some { b with nDataLength := 0, payload := writeAt b.payload 0 [0] }) ∧
    (b.nDataLength ≠ 0 → ¬ b.IsLocked →
      ∃ s₂, s.Empty = .ok s₂ ∧ s₂.addr = 0 ∧ s.addr ≠ 0 ∧
        s₂.heap.get 0 = some bn.AddRef ∧
        (1 ≤ b.nRefs - 1 →
          s₂.heap.get s.addr = some { b with nRefs := b.nRefs - 1 }) ∧
        (b.nRefs - 1 ≤ 0 → s₂.heap.get s.addr = none)) := by
  obtain ⟨hg1, hg2, hg3, hg4⟩ := hgood
  obtain ⟨he0, helk, henl⟩ := s.Empty_spec b hb
  refine ⟨he0, ?_, ?_⟩
  · intro h0 hlk
    rw [helk h0 hlk]
    obtain ⟨s₂, hsl, hsla, hsln, hslg, hslgood, hslframe⟩ :=
      s.SetLength_ok b 0 hb hg3 (le_refl 0) (by omega)
    refine ⟨s₂, hsl, hsla, ?_⟩
    rw [hsla] at hslg
    exact hslg
  · intro h0 hlk
    have haddr0 : s.addr ≠ 0 := by
      intro hc
      rw [hc, hnil] at hb
      cases hb
      exact h0 hbn0
    rw [henl h0 hlk]
    have hn2 : (s.heap.release s.addr).get 0 = some bn := by
      rw [Heap.get_release_ne _ _ _ (Ne.symm haddr0)]
      exact hnil
    refine ⟨_, rfl, rfl, haddr0, ?_, ?_, ?_⟩
    · exact Heap.get_getNilString _ _ hn2
    · intro hr
      have hlive := Heap.get_release_live s.heap s.addr b hb hr
      show ((s.heap.release s.addr).getNilString.1).get s.addr = _
      rw [Heap.get_getNilString_ne _ _ haddr0]
      exact hlive
    · intro hr
      have hdead := Heap.get_release_dead s.heap s.addr b hb hr haddr0
      show ((s.heap.release s.addr).getNilString.1).get s.addr = none
      rw [Heap.get_getNilString_ne _ _ haddr0]
      exact hdead

def c6Buf : Buf :=
  { pStringMgr := 5, nDataLength := 2, nAllocLength := 3, nRefs := -1,
    payload := [100, 101, 0, 0] }

def c6State : SState := ⟨⟨[(0, nilBufInit), (1, c6Buf)], 2⟩, 1⟩

theorem claim_C6_witness :
    ∃ s₂, c6State.Empty = .ok s₂ ∧ s₂.addr = c6State.addr ∧
      s₂.heap.get c6State.addr
        = some { c6Buf with nDataLength := 0,
                            payload := writeAt c6Buf.payload 0 [0] } :=
  (claim_C6 c6State c6Buf nilBufInit rfl rfl (by decide) (by decide)).2.1
    (by decide) (by decide)

/-- C3 (amended): assignment between handles on distinct buffers is a cheap
reference share (`AddRef` source, `Release` old target) only when the target
is not locked and the managers are interchangeable (and the source itself is
not locked); whenever the target is locked or the managers differ, it goes
through `SetString`, copying the source's characters into a buffer obtained
via the target's mutable-access path — the target's own buffer when that is
writable in place, otherwise a newly allocated or reallocated one — leaving
the source's buffer (its reference count included) unchanged for a non-empty
source. -/
theorem claim_C3 (h : Heap) (aD aS : Nat) (bD bS : Buf)
    (hD : h.get aD = some bD) (hS : h.get aS = some bS)
    (hne : aS ≠ aD) (haD : aD < h.next) (haS : aS < h.next)
    (hgoodD : Good bD) (hgoodS : Good bS) :
    (¬ bD.IsLocked → bS.pStringMgr = bD.pStringMgr → ¬ bS.IsLocked →
      assignOp h aD aS = .ok ((h.set aS bS.AddRef).release aD, aS)) ∧
    ((bD.IsLocked : Prop) ∨ bS.pStringMgr ≠ bD.pStringMgr →
      assignOp h aD aS
        = (SState.SetString ⟨h, aD⟩ (.ext bS.payload) bS.nDataLength).map
            (fun s => (s.heap, s.addr)) ∧
      (0 < bS.nDataLength →
        ∃ h' a' b', assignOp h aD aS = .ok (h', a') ∧
          h'.get aS = h.get aS ∧
          h'.get a' = some b' ∧
          b'.nDataLength = bS.nDataLength ∧
          b'.value = bS.value)) := by
  obtain ⟨hq1, hq2, hq3, hq4⟩ := hgoodS
  constructor
  · intro hDlk hmgr hSlk
    exact assignOp_share_eq h aD aS bD bS hD hS hne hDlk hmgr hSlk
  · intro hcond
    have hcopy := assignOp_copy_eq h aD aS bD bS hD hS hne hcond
    refine ⟨hcopy, ?_⟩
    intro hpos
    obtain ⟨s₂, b₂, hstep, hget, hg, hdl, hval, hnext2, hlt2, hframe⟩ :=
      SState.SetString_ok ⟨h, aD⟩ bD (.ext bS.payload) bS.nDataLength hD haD
        hgoodD hpos
    refine ⟨s₂.heap, s₂.addr, b₂, ?_, ?_, hget, hdl, ?_⟩
    · rw [hcopy, hstep]
      rfl
    · exact hframe aS hne haS
    · have hv := s₂.value_eq b₂ hget
      have hval2 := hval bS.payload rfl (by omega)
      rw [← hv, hval2]
      rfl

def c3wDst : Buf :=
  { pStringMgr := 5, nDataLength := 1, nAllocLength := 1, nRefs := 1,
    payload := [100, 0] }

def c3wSrc : Buf :=
  { pStringMgr := 5, nDataLength := 2, nAllocLength := 2, nRefs := 1,
    payload := [120, 121, 0] }

def c3wHeap : Heap := ⟨[(0, nilBufInit), (1, c3wDst), (2, c3wSrc)], 3⟩

theorem claim_C3_witness :
    assignOp c3wHeap 1 2 = .ok ((c3wHeap.set 2 c3wSrc.AddRef).release 1, 2) :=
  (claim_C3 c3wHeap 1 2 c3wDst c3wSrc rfl rfl (by decide) (by decide) (by decide)
    (by decide) (by decide)).1 (by decide) rfl (by decide)

def c3DstBuf : Buf :=
  { pStringMgr := 7, nDataLength := 3, nAllocLength := 5, nRefs := -1,
    payload := [97, 98, 99, 0, 0, 0] }

def c3SrcBuf : Buf :=
  { pStringMgr := 7, nDataLength := 2, nAllocLength := 2, nRefs := 1,
    payload := [120, 121, 0] }

def c3Heap : Heap := ⟨[(0, nilBufInit), (1, c3DstBuf), (2, c3SrcBuf)], 3⟩

/-- C3 counterexample: assigning `"xy"` to a locked 5-capacity handle holding
`"abc"` takes the copy path, but the characters land in the target's own
existing buffer (address 1; no allocation happens — `next` stays 3), not in
a freshly allocated buffer as the claim states. -/
theorem claim_C3_counterexample :
    (assignOp c3Heap 1 2).map Prod.snd = .ok 1 ∧
    (assignOp c3Heap 1 2).map (fun r => r.1.next) = .ok 3 ∧
    (assignOp c3Heap 1 2).map (fun r => (r.1.get 1).map Buf.value)
      = .ok (some [120, 121]) :=
  ⟨rfl, rfl, rfl⟩
/-- C9: after each public operation — construction (all three constructor
forms), assignment, `Append`, `SetString`, `SetAt`, `Truncate`, `Empty`,
`FreeExtra`, `ReleaseBuffer` — the attached buffer's payload is
NUL-terminated at index `nDataLength` and `nDataLength ≤ nAllocLength`
(the `Good` header invariant). -/
theorem claim_C9 :
    (∀ h : Heap, ∀ bn : Buf, h.get 0 = some bn → Good bn →
      GoodAt (mkFromMgr h).heap (mkFromMgr h).addr) ∧
    (∀ (h : Heap) (m : Nat) (cs : List Int) (n : Int), 0 ≤ n →
      ∃ s₂, mkFromChars h m (some cs) n = .ok s₂ ∧ GoodAt s₂.heap s₂.addr) ∧
    (∀ (h : Heap) (m : Nat) (cs : List Int),
      ∃ s₂, mkFromCStr h m cs = .ok s₂ ∧ GoodAt s₂.heap s₂.addr) ∧
    (∀ (h : Heap) (a : Nat) (bS : Buf), h.get a = some bS → Good bS →
      ∃ s₂, mkCopy h a = .ok s₂ ∧ GoodAt s₂.heap s₂.addr) ∧
    (∀ (h : Heap) (aD aS : Nat) (bD bS bn : Buf),
      h.get aD = some bD → h.get aS = some bS → h.get 0 = some bn →
      aD < h.next → Good bD → Good bS → Good bn → bn.nDataLength = 0 →
      ∃ r, assignOp h aD aS = .ok r ∧ GoodAt r.1 r.2) ∧
    (∀ (s : SState) (b : Buf) (src : Src) (n : Int),
      s.heap.get s.addr = some b → s.addr < s.heap.next → Good b → 0 ≤ n →
      b.nDataLength + (strnlen (src.read b.payload) n.toNat : Int) ≤ INT_MAX →
      ∃ s₂, s.Append src n = .ok s₂ ∧ GoodAt s₂.heap s₂.addr) ∧
    (∀ (s : SState) (b bn : Buf) (src : Src) (n : Int),
      s.heap.get s.addr = some b → s.heap.get 0 = some bn →
      s.addr < s.heap.next → Good b → Good bn → bn.nDataLength = 0 → 0 ≤ n →
      ∃ s₂, s.SetString src n = .ok s₂ ∧ GoodAt s₂.heap s₂.addr) ∧
    (∀ (s : SState) (b : Buf) (i ch : Int),
      s.heap.get s.addr = some b → s.addr < s.heap.next → Good b →
      0 ≤ i → i < b.nDataLength →
      ∃ s₂, s.SetAt i ch = .ok s₂ ∧ GoodAt s₂.heap s₂.addr) ∧
    (∀ (s : SState) (b : Buf) (n : Int),
      s.heap.get s.addr = some b → s.addr < s.heap.next → Good b → 0 ≤ n →
      ∃ s₂, s.Truncate n = .ok s₂ ∧ GoodAt s₂.heap s₂.addr) ∧
    (∀ (s : SState) (b bn : Buf),
      s.heap.get s.addr = some b → s.heap.get 0 = some bn →
      Good b → Good bn → bn.nDataLength = 0 →
      ∃ s₂, s.Empty = .ok s₂ ∧ GoodAt s₂.heap s₂.addr) ∧
    (∀ (s : SState) (b : Buf),
      s.heap.get s.addr = some b → s.addr < s.heap.next → Good b →
      ∃ s₂, s.FreeExtra = .ok s₂ ∧ GoodAt s₂.heap s₂.addr) ∧
    (∀ (s : SState) (b : Buf) (n : Int),
      s.heap.get s.addr = some b → Good b →
      (n = -1 ∨ (0 ≤ n ∧ n ≤ b.nAllocLength)) →
      ∃ s₂, s.ReleaseBuffer n = .ok s₂ ∧ GoodAt s₂.heap s₂.addr) := by
  refine ⟨?_, ?_, ?_, ?_, ?_, ?_, ?_, ?_, ?_, ?_, ?_, ?_⟩
  · intro h bn hnil hgood
    obtain ⟨hget, hg⟩ := mkFromMgr_ok h bn hnil hgood
    exact ⟨bn.AddRef, hget, hg⟩
  · intro h m cs n hn
    obtain ⟨s₂, b₂, h1, h2, h3, _⟩ := mkFromChars_ok h m cs n hn
    exact ⟨s₂, h1, b₂, h2, h3⟩
  · intro h m cs
    obtain ⟨s₂, b₂, h1, h2, h3, _⟩ := mkFromChars_ok h m cs (strlen cs : Int)
      (by omega)
    exact ⟨s₂, h1, b₂, h2, h3⟩
  · intro h a bS hS hgood
    exact mkCopy_ok h a bS hS hgood
  · intro h aD aS bD bS bn hD hS hnil haD hgD hgS hgn hbn0
    exact assignOp_ok h aD aS bD bS bn hD hS hnil haD hgD hgS hgn hbn0
  · intro s b src n hb haddr hgood hn hmax
    obtain ⟨s₂, b₂, h1, h2, h3, _, _, _, _, _⟩ :=
      s.Append_ok b src n hb haddr hgood hn hmax
    exact ⟨s₂, h1, b₂, h2, h3⟩
  · intro s b bn src n hb hnil haddr hgood hgn hbn0 hn
    exact s.SetString_any_ok b bn src n hb hnil haddr hgood hgn hbn0 hn
  · intro s b i ch hb haddr hgood hi0 hilt
    obtain ⟨s₂, b₂, h1, h2, h3, _⟩ := s.SetAt_ok b i ch hb haddr hgood hi0 hilt
    exact ⟨s₂, h1, b₂, h2, h3⟩
  · intro s b n hb haddr hgood hn
    obtain ⟨s₂, b₂, h1, h2, h3, _⟩ := s.Truncate_ok b n hb haddr hgood hn
    exact ⟨s₂, h1, b₂, h2, h3⟩
  · intro s b bn hb hnil hgood hgn hbn0
    exact s.Empty_ok b bn hb hnil hgood hgn hbn0
  · intro s b hb haddr hgood
    obtain ⟨s₂, b₂, h1, h2, h3, _⟩ := s.FreeExtra_ok b hb haddr hgood
    exact ⟨s₂, h1, b₂, h2, h3⟩
  · intro s b n hb hgood hn
    obtain ⟨s₂, b₂, h1, h2, h3⟩ := s.ReleaseBuffer_ok b n hb hgood hn
    exact ⟨s₂, h1, b₂, h2, h3⟩

def c9Buf : Buf :=
  { pStringMgr := 5, nDataLength := 1, nAllocLength := 1, nRefs := 1,
    payload := [104, 0] }

def c9State : SState := ⟨⟨[(0, nilBufInit), (1, c9Buf)], 2⟩, 1⟩

theorem claim_C9_witness :
    ∃ s₂, c9State.Truncate 0 = .ok s₂ ∧ GoodAt s₂.heap s₂.addr :=
  claim_C9.2.2.2.2.2.2.2.2.1 c9State c9Buf 0 rfl (by decide) (by decide)
    (by decide)
/-- C7: `operator+` builds the concatenation in a brand-new buffer (the
fresh address `h.next`), the result holds the first operand's characters
followed by the second operand's with length the sum of the lengths, and
neither operand's buffer — content, length, or heap entry — is changed. -/
theorem claim_C7 (h : Heap) (a1 a2 : Nat) (bn b1 b2 : Buf)
    (hnil : h.get 0 = some bn) (hgoodn : Good bn) (hbn0 : bn.nDataLength = 0)
    (hbnr : 1 ≤ bn.nRefs)
    (hb1 : h.get a1 = some b1) (hb2 : h.get a2 = some b2)
    (hgood1 : Good b1) (hgood2 : Good b2)
    (ha1 : a1 < h.next) (ha2 : a2 < h.next) (h0n : 0 < h.next) :
    ∃ h' bR, opPlus h a1 a2 = .ok (h', h.next) ∧
      h'.get h.next = some bR ∧
      bR.nDataLength = b1.nDataLength + b2.nDataLength ∧
      bR.value = b1.value ++ b2.value ∧
      h.next ≠ a1 ∧ h.next ≠ a2 ∧
      h'.get a1 = h.get a1 ∧ h'.get a2 = h.get a2 := by
  obtain ⟨hn1, hn2, hn3, hn4⟩ := hgoodn
  obtain ⟨hp1, hp2, hp3, hp4⟩ := hgood1
  obtain ⟨hq1, hq2, hq3, hq4⟩ := hgood2
  have hgn : h.getNilString = (h.set 0 bn.AddRef, 0) := by
    unfold Heap.getNilString
    rw [hnil]
  set sNil : SState := ⟨h.set 0 bn.AddRef, 0⟩ with hsNil
  have hbA : sNil.heap.get 0 = some bn.AddRef := Heap.get_set_eq _ _ _ _ hnil
  -- captured operand spans
  have hcap1 : (((h.set 0 bn.AddRef).get a1).getD nilBufInit).payload = b1.payload
      ∧ (((h.set 0 bn.AddRef).get a1).getD nilBufInit).nDataLength
        = b1.nDataLength := by
    by_cases h10 : a1 = 0
    · have hbb : b1 = bn := by
        rw [h10, hnil] at hb1
        cases hb1
        rfl
      subst h10
      rw [Heap.get_set_eq _ _ _ _ hnil]
      simp [Buf.AddRef, hbb]
    · rw [Heap.get_set_ne _ _ _ _ h10, hb1]
      exact ⟨rfl, rfl⟩
  have hcap2 : (((h.set 0 bn.AddRef).get a2).getD nilBufInit).payload = b2.payload
      ∧ (((h.set 0 bn.AddRef).get a2).getD nilBufInit).nDataLength
        = b2.nDataLength := by
    by_cases h20 : a2 = 0
    · have hbb : b2 = bn := by
        rw [h20, hnil] at hb2
        cases hb2
        rfl
      subst h20
      rw [Heap.get_set_eq _ _ _ _ hnil]
      simp [Buf.AddRef, hbb]
    · rw [Heap.get_set_ne _ _ _ _ h20, hb2]
      exact ⟨rfl, rfl⟩
  have hop : opPlus h a1 a2
      = concatenate (h.set 0 bn.AddRef) 0 b1.payload b1.nDataLength
          b2.payload b2.nDataLength := by
    unfold opPlus
    simp only [hgn, hcap1.1, hcap1.2, hcap2.1, hcap2.2]
  set nNew : Int := b1.nDataLength + b2.nDataLength with hnNew
  have hnNew0 : 0 ≤ nNew := by omega
  -- `GetBuffer` on the nil handle always forks
  have hAgood : Good bn.AddRef := ⟨hn1, hn2, hn3, hn4⟩
  have hpweq : sNil.PrepareWrite nNew = sNil.Fork nNew := by
    rw [SState.PrepareWrite_shared sNil bn.AddRef nNew hbA
      (by simp [Buf.AddRef]; omega) hnNew0]
    have hz : bn.AddRef.nDataLength = 0 := by simp [Buf.AddRef, hbn0]
    rw [hz, if_neg (by omega)]
  have hsNaddr : sNil.addr < sNil.heap.next := by
    simp only [hsNil, Heap.set_next]
    exact h0n
  obtain ⟨sF, hstepF, hF1, hF2, hF3, hF4, hF5⟩ :=
    sNil.Fork_ok bn.AddRef nNew hbA hsNaddr hnNew0 hn3 hn1 hn2
  have hsNnext : sNil.heap.next = h.next := Heap.set_next _ _ _
  set fb : Buf := forkBuf bn.AddRef nNew with hfb
  have hdataF : sF.data = fb := sF.data_eq fb hF3
  have hfbdl : fb.nDataLength = 0 := by simp [hfb, forkBuf, Buf.AddRef, hbn0]
  have hfballoc : fb.nAllocLength = nNew := by simp [hfb, forkBuf]
  have hfbgood : Good fb :=
    forkBuf_good bn.AddRef nNew hAgood (by simp [Buf.AddRef]; omega)
  have hfblen : fb.payload.length = nNew.toNat + 1 := by
    have := hfbgood.2.2.1
    rw [hfballoc] at this
    exact this
  -- the two operand copies
  set u : List Int := b1.payload.take b1.nDataLength.toNat with hu
  set v : List Int := b2.payload.take b2.nDataLength.toNat with hv
  have hulen : u.length = b1.nDataLength.toNat := by
    simp [hu, hp3]
    omega
  have hvlen : v.length = b2.nDataLength.toNat := by
    simp [hv, hq3]
    omega
  set p1 : List Int := writeAt fb.payload 0 u with hP1
  have hp1len : p1.length = nNew.toNat + 1 := by
    rw [hP1, writeAt_length _ _ _ (by rw [hulen, hfblen]; omega)]
    exact hfblen
  set p2 : List Int := writeAt p1 b1.nDataLength.toNat v with hP2
  have hp2len : p2.length = nNew.toNat + 1 := by
    rw [hP2, writeAt_length _ _ _ (by rw [hvlen, hp1len]; omega)]
    exact hp1len
  set bC : Buf := { fb with payload := p2 } with hbC
  set s2 : SState := ⟨sF.heap.set sF.addr bC, sF.addr⟩ with hs2
  have hgetC : s2.heap.get s2.addr = some bC := by
    simp only [hs2]
    exact Heap.get_set_eq _ _ _ _ hF3
  have hbClen : bC.payload.length = bC.nAllocLength.toNat + 1 := by
    simp only [hbC]
    rw [hp2len, hfballoc]
  obtain ⟨s₃, hsl, hsla, hsln, hslg, hslgood, hslframe⟩ :=
    s2.SetLength_ok bC nNew hgetC hbClen hnNew0
      (by simp only [hbC]; rw [hfballoc])
  have hchain : opPlus h a1 a2 = .ok (s₃.heap, s₃.addr) := by
    rw [hop]
    unfold concatenate
    simp only [SState.GetBuffer, ← hsNil, ← hnNew, hpweq, hstepF, hdataF,
      ← hu, ← hv, ← hP1, ← hP2, ← hbC, ← hs2, hsl]
  have haddr3 : s₃.addr = h.next := by
    rw [hsla]
    simp only [hs2]
    rw [hF1, hsNnext]
  have hrel : sF.heap.get 0 = some bn := by
    have h5 := hF5 (by simp [Buf.AddRef]; omega)
    rw [Buf.addRef_release] at h5
    exact h5
  have hframe : ∀ a : Nat, a < h.next → s₃.heap.get a = h.get a := by
    intro a ha
    have hane : a ≠ s2.addr := by
      simp only [hs2]
      rw [hF1, hsNnext]
      omega
    rw [hslframe a hane]
    have hs2g : s2.heap.get a = sF.heap.get a := by
      simp only [hs2]
      refine Heap.get_set_ne _ _ _ _ ?_
      rw [hF1, hsNnext]
      omega
    rw [hs2g]
    by_cases h10 : a = 0
    · subst h10
      rw [hrel, hnil]
    · have h4 := hF4 a h10 (by rw [hsNnext]; omega)
      rw [h4]
      simp only [hsNil]
      exact Heap.get_set_ne _ _ _ _ h10
  refine ⟨s₃.heap, _, by rw [hchain, haddr3], by rw [← haddr3]; exact hslg,
    ?_, ?_, by omega, by omega, hframe a1 ha1, hframe a2 ha2⟩
  · show nNew = b1.nDataLength + b2.nDataLength
    rw [hnNew]
  · -- the committed value
    have hvv : ({ bC with
          nDataLength := nNew,
          payload := writeAt bC.payload nNew.toNat [0] } : Buf).value
        = (writeAt p2 nNew.toNat [0]).take nNew.toNat := by
      unfold Buf.value
      rfl
    rw [hvv]
    rw [writeAt_take_le _ _ _ _ (le_refl _) (by rw [hp2len]; omega)]
    have htn : nNew.toNat = b1.nDataLength.toNat + b2.nDataLength.toNat := by
      omega
    rw [htn]
    have hstep2 : p2.take (b1.nDataLength.toNat + b2.nDataLength.toNat)
        = p1.take b1.nDataLength.toNat ++ v := by
      have hwq := writeAt_take_eq p1 v b1.nDataLength.toNat (by rw [hp1len]; omega)
      rw [hvlen] at hwq
      rw [hP2]
      exact hwq
    rw [hstep2]
    have hstep1 : p1.take b1.nDataLength.toNat = u := by
      have hwq := writeAt_take_eq fb.payload u 0 (by omega)
      simp only [Nat.zero_add, List.take_zero, List.nil_append] at hwq
      rw [hulen] at hwq
      rw [hP1]
      exact hwq
    rw [hstep1]
    rfl

def c7Buf1 : Buf :=
  { pStringMgr := 5, nDataLength := 2, nAllocLength := 2, nRefs := 1,
    payload := [97, 98, 0] }

def c7Buf2 : Buf :=
  { pStringMgr := 5, nDataLength := 2, nAllocLength := 2, nRefs := 1,
    payload := [99, 100, 0] }

/-- A zero-length shared buffer playing the nil singleton's role in a
concrete heap (the literal `CNilStringData` advertises `nAllocLength = 0`
over its two cells; this witness buffer exposes one of them). -/
def nilBufW : Buf :=
  { pStringMgr := 0, nDataLength := 0, nAllocLength := 1, nRefs := 2,
    payload := [0, 0] }

def c7Heap : Heap := ⟨[(0, nilBufW), (1, c7Buf1), (2, c7Buf2)], 3⟩

theorem claim_C7_witness :
    ∃ h' bR, opPlus c7Heap 1 2 = .ok (h', c7Heap.next) ∧
      h'.get c7Heap.next = some bR ∧
      bR.nDataLength = c7Buf1.nDataLength + c7Buf2.nDataLength ∧
      bR.value = c7Buf1.value ++ c7Buf2.value ∧
      c7Heap.next ≠ 1 ∧ c7Heap.next ≠ 2 ∧
      h'.get 1 = c7Heap.get 1 ∧ h'.get 2 = c7Heap.get 2 :=
  claim_C7 c7Heap 1 2 nilBufW c7Buf1 c7Buf2 rfl (by decide) (by decide)
    (by decide) rfl rfl (by decide) (by decide) (by decide) (by decide)
    (by decide)
